import Mathlib

/-!
# OsintTool front end (`static/js/main.js`)

A shallow embedding of the scan-history script: the history array, its
persistence in `localStorage`, the summary table, the detail dialog and the
statistics counters, followed by the properties of the specification that
were checked against it.

## Modelling conventions

* JavaScript values are the trees of `JSVal`.  Numbers are exact integers
  (plus `NaN`), printed as Number::toString prints them (plain decimal below
  10^21, exponent form from there on); fractions, rounding and overflow of
  IEEE doubles are outside the model.
* A thrown exception is a `JSError`.  An operation that can throw returns
  `Except JSError _`; a handler whose page changes survive a throw returns the
  page reached together with the exception.  The wording of engine-raised
  messages follows V8.
* Conversions to a string or a primitive (`toStr`, `add`, `index`,
  `datePrimitive`) throw where the engine does: on an object with an own entry
  named `toString`, which JSON data can carry and which is never callable.
* Reading a fixed property name (`scan.results`, `x.length`, ...) goes through
  `getProp`.  None of the names read by the script is defined on a built-in
  prototype, so only own properties (and `length` of strings and arrays)
  matter.  The three lookup tables indexed by a run-time key (`types`,
  `statuses`, `endpoints`) are read with `index`, which also finds the members
  inherited from `Object.prototype`.
* Two object or array values are never `===`: the script never compares a
  reference with itself (ids come out of `Date.now()` or `JSON.parse`).
* The page elements the script looks up are assumed to exist; their state is
  the record `Page`.  `scanHistory` is an array, as after a load of a snapshot
  the script wrote, and `localStorage` accepts every write.
* `Date.now()`, `new Date().toISOString()`, `toLocaleDateString`, `fetch` and
  `confirm` are inputs from the environment, collected in `Env`.
* `JSON.stringify` and `JSON.parse` are modelled on the JSON grammar;
  `jsonParse_stringify` relates the two.
-/

namespace OsintTool

/-! ## JavaScript values -/

/-- JavaScript values reachable from JSON data, plus `undefined` and `NaN`. -/
inductive JSVal where
  | undefined
  | null
  | bool (b : Bool)
  | num (n : Int)
  | nan
  | str (s : String)
  | arr (items : List JSVal)
  | obj (fields : List (String × JSVal))

/-- Thrown values: the three kinds of exception the script can meet. -/
inductive JSError where
  | typeError (message : String)
  | syntaxError (message : String)
  | error (message : String)

/-- The `message` property of a thrown error. -/
def JSError.message : JSError → String
  | .typeError m => m
  | .syntaxError m => m
  | .error m => m

namespace JSVal

/-- ToBoolean. -/
def truthy : JSVal → Bool
  | undefined => false
  | null => false
  | bool b => b
  | num n => n != 0
  | nan => false
  | str s => s != ""
  | arr _ => true
  | obj _ => true

/-- The value is `undefined` or `null`. -/
def nullish : JSVal → Bool
  | undefined => true
  | null => true
  | _ => false

/-- The operator `a || b`. -/
def orElse (a b : JSVal) : JSVal := if a.truthy then a else b

/-- The operator `a === b`.  Objects and arrays compare by reference, and no
two references compared by the script are the same one. -/
def strictEq : JSVal → JSVal → Bool
  | undefined, undefined => true
  | null, null => true
  | bool a, bool b => a == b
  | num a, num b => a == b
  | str a, str b => a == b
  | _, _ => false

/-- The TypeError of ToPrimitive on an object none of whose conversion
methods gives a primitive. -/
def conversionError : JSError := .typeError "Cannot convert object to primitive value"

/-- Trailing zeros removed from a list of digits. -/
def stripZeros (digits : List Char) : List Char :=
  (digits.reverse.dropWhile (fun c => c == '0')).reverse

/-- Number::toString of a natural number: plain decimal below 10^21, from
there on the significant digits with a decimal point after the first one and
the exponent. -/
def natText (n : Nat) : List Char :=
  if n < 10 ^ 21 then Nat.toDigits 10 n
  else
    match stripZeros (Nat.toDigits 10 n) with
    | [] => Nat.toDigits 10 n
    | d :: more =>
      d :: ((if more = [] then [] else '.' :: more)
        ++ 'e' :: '+' :: Nat.toDigits 10 ((Nat.toDigits 10 n).length - 1))

/-- Number::toString of an integer. -/
def numText (n : Int) : String :=
  match n with
  | .ofNat m => String.mk (natText m)
  | .negSucc m => String.mk ('-' :: natText (m + 1))

mutual
/-- ToString, as applied by template literals, property keys, `new Error` and
string concatenation.  A plain object converts through
`Object.prototype.toString` unless it has an own `toString` entry: such an
entry is never callable, `valueOf` then returns the object itself, and the
conversion throws.  An array converts through `join`. -/
def toStr : JSVal → Except JSError String
  | undefined => .ok "undefined"
  | null => .ok "null"
  | bool b => .ok (if b then "true" else "false")
  | num n => .ok (numText n)
  | nan => .ok "NaN"
  | str s => .ok s
  | arr items => joinWith "," items
  | obj fields =>
    if fields.any (fun kv => kv.1 == "toString") then .error conversionError
    else .ok "[object Object]"
termination_by structural v => v
/-- The method `Array.prototype.join`: `undefined` and `null` elements give the
empty string, the others are converted in order. -/
def joinWith (sep : String) : List JSVal → Except JSError String
  | [] => .ok ""
  | x :: rest =>
    match (match x with
           | undefined => Except.ok ""
           | null => Except.ok ""
           | v => toStr v) with
    | .error e => .error e
    | .ok first =>
      match rest with
      | [] => .ok first
      | _ :: _ =>
        match joinWith sep rest with
        | .error e => .error e
        | .ok others => .ok (first ++ sep ++ others)
termination_by structural l => l
end

/-- Length of a string in UTF-16 code units. -/
def utf16Length (s : String) : Nat :=
  s.toList.foldl (fun n c => n + (if c.toNat < 65536 then 1 else 2)) 0

/-- Property read on a value that is neither `undefined` nor `null`. -/
def member (v : JSVal) (key : String) : JSVal :=
  match v with
  | str s => if key = "length" then num (utf16Length s) else undefined
  | arr items => if key = "length" then num items.length else undefined
  | obj fields => (fields.lookup key).getD undefined
  | _ => undefined

/-- Property read `v.key`: a TypeError on `undefined` and `null`. -/
def getProp (v : JSVal) (key : String) : Except JSError JSVal :=
  match v with
  | undefined =>
    .error (.typeError ("Cannot read properties of undefined (reading '" ++ key ++ "')"))
  | null => .error (.typeError ("Cannot read properties of null (reading '" ++ key ++ "')"))
  | _ => .ok (member v key)

/-- Optional chaining `v?.length`. -/
def optLength (v : JSVal) : JSVal :=
  if v.nullish then undefined else member v "length"

/-- Property names every object literal inherits from `Object.prototype`. -/
def objectPrototypeKeys : List String :=
  ["constructor", "__defineGetter__", "__defineSetter__", "hasOwnProperty",
   "__lookupGetter__", "__lookupSetter__", "isPrototypeOf", "propertyIsEnumerable",
   "toString", "valueOf", "__proto__", "toLocaleString"]

/-- What a lookup `table[key] || fallback` in an object literal of the script
gives: a value of the table or the fallback, or a member of
`Object.prototype`, named by its key. -/
inductive Looked where
  | value (v : JSVal)
  | builtin (key : String)

/-- Lookup `table[key]` in an object literal of the script: the key is
converted to a property name, own properties come first, then the members of
`Object.prototype`. -/
def index (table : JSVal) (key : JSVal) : Except JSError Looked :=
  match toStr key with
  | .error e => .error e
  | .ok name =>
    match table with
    | obj fields =>
      match fields.lookup name with
      | some v => .ok (.value v)
      | none =>
        if objectPrototypeKeys.contains name then .ok (.builtin name)
        else .ok (.value undefined)
    | _ => .ok (.value undefined)

/-- The operator `looked || fallback`: every member of `Object.prototype` is
truthy. -/
def Looked.orElse (looked : Looked) (fallback : JSVal) : Looked :=
  match looked with
  | .value v => .value (JSVal.orElse v fallback)
  | .builtin key => .builtin key

/-- ToString of a looked-up value.  A built-in function prints as V8 prints
it; the key `__proto__` gives `Object.prototype` itself. -/
def Looked.toStr (looked : Looked) : Except JSError String :=
  match looked with
  | .value v => JSVal.toStr v
  | .builtin key =>
    if key = "__proto__" then .ok "[object Object]"
    else if key = "constructor" then .ok "function Object() \x7b [native code] \x7d"
    else .ok ("function " ++ key ++ "() \x7b [native code] \x7d")

/-- ToNumber on primitives that are not strings; `none` stands for `NaN`. -/
def toNumber : JSVal → Option Int
  | null => some 0
  | bool b => some (if b then 1 else 0)
  | num n => some n
  | _ => none

/-- ToPrimitive yields a string: strings, arrays and plain objects. -/
def stringLike : JSVal → Bool
  | str _ => true
  | arr _ => true
  | obj _ => true
  | _ => false

/-- The operator `a + b`: both operands are made primitive, left first; if
one of them is then a string the two are concatenated, else added as numbers. -/
def add (a b : JSVal) : Except JSError JSVal :=
  if a.stringLike || b.stringLike then
    match toStr a with
    | .error e => .error e
    | .ok left =>
      match toStr b with
      | .error e => .error e
      | .ok right => .ok (str (left ++ right))
  else
    match toNumber a, toNumber b with
    | some x, some y => .ok (num (x + y))
    | _, _ => .ok nan

/-- The argument of `new Date(v)` made primitive: an array or object is
converted to a string. -/
def datePrimitive (v : JSVal) : Except JSError JSVal :=
  if v.stringLike then
    match toStr v with
    | .error e => .error e
    | .ok text => .ok (str text)
  else .ok v

/-- Value written by `element.textContent = v`: `undefined` and `null` clear
the element, anything else is converted to a string. -/
def textContent (v : JSVal) : Except JSError String :=
  if v.nullish then .ok "" else toStr v

/-- The call `v.join(sep)`; `path` is the source text of `v`. -/
def callJoin (path : String) (v : JSVal) (sep : String) : Except JSError String :=
  match v with
  | undefined => .error (.typeError "Cannot read properties of undefined (reading 'join')")
  | null => .error (.typeError "Cannot read properties of null (reading 'join')")
  | arr items => joinWith sep items
  | _ => .error (.typeError (path ++ ".join is not a function"))

/-- Apply a callback that may throw to every element, in order. -/
def mapE (f : JSVal → Except JSError String) : List JSVal → Except JSError (List String)
  | [] => .ok []
  | x :: rest =>
    match f x with
    | .error e => .error e
    | .ok y =>
      match mapE f rest with
      | .error e => .error e
      | .ok ys => .ok (y :: ys)

/-- The call `v.map(f).join('')` for a callback producing strings; `path` is
the source text of `v`. -/
def callMapJoin (path : String) (v : JSVal) (f : JSVal → Except JSError String) :
    Except JSError String :=
  match v with
  | undefined => .error (.typeError "Cannot read properties of undefined (reading 'map')")
  | null => .error (.typeError "Cannot read properties of null (reading 'map')")
  | arr items =>
    match mapE f items with
    | .error e => .error e
    | .ok parts => .ok (String.join parts)
  | _ => .error (.typeError (path ++ ".map is not a function"))

/-! ### `JSON.stringify` -/

/-- One hexadecimal digit, lower case. -/
def hexDigit (n : Nat) : Char :=
  if n < 10 then Char.ofNat (48 + n) else Char.ofNat (87 + n)

/-- The escape of one character inside a JSON string literal. -/
def escapeChar (c : Char) : List Char :=
  if c = '"' then ['\\', '"']
  else if c = '\\' then ['\\', '\\']
  else if c.toNat = 8 then ['\\', 'b']
  else if c.toNat = 12 then ['\\', 'f']
  else if c = '\n' then ['\\', 'n']
  else if c = '\r' then ['\\', 'r']
  else if c = '\t' then ['\\', 't']
  else if c.toNat < 32 then
    ['\\', 'u', '0', '0', hexDigit (c.toNat / 16), hexDigit (c.toNat % 16)]
  else [c]

/-- A string as a JSON string literal. -/
def quote (s : String) : String :=
  String.mk ('"' :: (s.toList.flatMap escapeChar ++ ['"']))

mutual
/-- The value `JSON.stringify` serialises in place of an array element or a
property value: `undefined` and `NaN` become `null`, a property holding
`undefined` is left out, and of several list entries with one key only the
first, the one `member` reads, is a property of the object. -/
def jsonOf : JSVal → JSVal
  | undefined => null
  | nan => null
  | null => null
  | bool b => bool b
  | num n => num n
  | str s => str s
  | arr items => arr (jsonOfItems items)
  | obj fields => obj (jsonOfFields [] fields)
termination_by structural v => v
/-- Elements of a serialised array. -/
def jsonOfItems : List JSVal → List JSVal
  | [] => []
  | x :: rest => jsonOf x :: jsonOfItems rest
termination_by structural l => l
/-- Properties of a serialised object; `seen` holds the keys already met. -/
def jsonOfFields (seen : List String) : List (String × JSVal) → List (String × JSVal)
  | [] => []
  | kv :: rest =>
    if seen.contains kv.1 then jsonOfFields seen rest
    else
      match jsonOfField kv with
      | none => jsonOfFields (kv.1 :: seen) rest
      | some p => p :: jsonOfFields (kv.1 :: seen) rest
termination_by structural l => l
/-- One serialised property, none when the value is `undefined`. -/
def jsonOfField : String × JSVal → Option (String × JSVal)
  | (_, undefined) => none
  | (k, v) => some (k, jsonOf v)
termination_by structural kv => kv
end

mutual
/-- JSON text of a serialised value, without white space. -/
def textOf : JSVal → String
  | undefined => "null"
  | nan => "null"
  | null => "null"
  | bool b => if b then "true" else "false"
  | num n => numText n
  | str s => quote s
  | arr items => "[" ++ textOfItems items ++ "]"
  | obj fields => "\x7b" ++ textOfFields fields ++ "\x7d"
termination_by structural v => v
/-- Elements of an array, commas between them. -/
def textOfItems : List JSVal → String
  | [] => ""
  | x :: rest =>
    textOf x
    ++ (match rest with
        | [] => ""
        | _ :: _ => "," ++ textOfItems rest)
termination_by structural l => l
/-- Properties of an object, commas between them. -/
def textOfFields : List (String × JSVal) → String
  | [] => ""
  | kv :: rest =>
    textOfField kv
    ++ (match rest with
        | [] => ""
        | _ :: _ => "," ++ textOfFields rest)
termination_by structural l => l
/-- One property, `"key":value`. -/
def textOfField : String × JSVal → String
  | (k, v) => quote k ++ ":" ++ textOf v
termination_by structural kv => kv
end

/-- The function `JSON.stringify`; `none` is the result `undefined`.  Properties
are written in the order of the list (the engine moves integer-like keys to
the front, an order the script never observes). -/
def stringifyVal (v : JSVal) : Option String :=
  match v with
  | undefined => none
  | _ => some (textOf (jsonOf v))

end JSVal

open JSVal

/-! ## Page state and environment -/

/-- State the script reads and writes: its global `scanHistory`, the
`scanHistory` key of `localStorage`, and the page elements it touches. -/
structure Page where
  /-- The global array `scanHistory`. -/
  scanHistory : List JSVal
  /-- Value of `localStorage.getItem('scanHistory')`, `none` when absent. -/
  storage : Option String
  /-- Property `scanModal.style.display`. -/
  scanModal : String
  /-- Property `resultsModal.style.display`. -/
  resultsModal : String
  /-- Property `loadingOverlay.style.display`. -/
  loadingOverlay : String
  /-- Property `innerHTML` of the table body `#scanResults`. -/
  scanResults : String
  /-- Property `textContent` of the three `.stat-value` elements. -/
  statValues : String × String × String
  /-- Property `innerHTML` of `#resultsContainer`. -/
  resultsContainer : String
  /-- Messages shown by `alert`, oldest first. -/
  alerts : List String

/-- What `fetch` followed by `response.json()` gives: a rejected request, or a
response with its status and the outcome of reading its body as JSON. -/
inductive FetchOutcome where
  | rejected (e : JSError)
  | response (status : Nat) (json : Except JSError JSVal)

/-- Inputs from the environment during one handler run. -/
structure Env where
  /-- Result of `Date.now()`. -/
  now : Int
  /-- Result of `new Date().toISOString()`. -/
  isoNow : String
  /-- The composite `new Date(v).toLocaleDateString('tr-TR')` for a primitive
  `v`, which never throws (an invalid date prints as such). -/
  localeDate : JSVal → String
  /-- The remote service: from the request URL, as a string, and the payload
  (sent as JSON) to the outcome. -/
  fetch : String → JSVal → FetchOutcome
  /-- Answer of the user to `confirm`. -/
  confirm : Bool

/-- Property `response.ok`: status in the range 200 to 299. -/
def responseOk (status : Nat) : Bool := 200 ≤ status && status ≤ 299

/-! ## The script -/

/-- Table `types` of `getScanTypeName`. -/
def types : JSVal :=
  obj [("subdomain", str "Subdomain"), ("directory", str "Dizin"), ("js", str "JS Analizi")]

/-- Table `statuses` of `getStatusName`. -/
def statuses : JSVal :=
  obj [("completed", str "Tamamlandı"), ("in-progress", str "Devam Ediyor"),
       ("failed", str "Başarısız")]

/-- Table `endpoints` of `startScan`. -/
def endpoints : JSVal :=
  obj [("subdomain", str "/api/scan/subdomains"), ("directory", str "/api/scan/directories"),
       ("js", str "/api/analyze/js")]

/-- Function `getScanTypeName`: `types[type] || type`. -/
def getScanTypeName (type : JSVal) : Except JSError Looked :=
  match index types type with
  | .error e => .error e
  | .ok looked => .ok (looked.orElse type)

/-- Function `getStatusName`: `statuses[status] || status`. -/
def getStatusName (status : JSVal) : Except JSError Looked :=
  match index statuses status with
  | .error e => .error e
  | .ok looked => .ok (looked.orElse status)

/-- Function `getResultsSummary`.  `scan.type` is read once here; the repeated
reads of the source give the same value. -/
def getResultsSummary (scan : JSVal) : Except JSError String := do
  let type ← getProp scan "type"
  if strictEq type (str "subdomain") then
    let results ← getProp scan "results"
    let subdomains ← getProp results "subdomains"
    let count ← toStr (orElse (optLength subdomains) (num 0))
    pure (count ++ " subdomain")
  else if strictEq type (str "directory") then
    let results ← getProp scan "results"
    let directories ← getProp results "directories"
    let count ← toStr (orElse (optLength directories) (num 0))
    pure (count ++ " dizin")
  else if strictEq type (str "js") then
    let results ← getProp scan "results"
    let jsFiles ← getProp results "js_files"
    let count ← toStr (orElse (optLength jsFiles) (num 0))
    pure (count ++ " JS dosyası")
  else
    pure "0 sonuç"

/-- One table row: the callback of `scanHistory.map` in `updateScanResults`.
Each substitution of the template is evaluated and converted in turn. -/
def scanRow (env : Env) (scan : JSVal) : Except JSError String := do
  let target ← getProp scan "target"
  let targetText ← toStr target
  let type ← getProp scan "type"
  let typeName ← getScanTypeName type
  let typeText ← typeName.toStr
  let status ← getProp scan "status"
  let statusText ← toStr status
  let statusName ← getStatusName status
  let statusNameText ← statusName.toStr
  let summary ← getResultsSummary scan
  let date ← getProp scan "date"
  let datePrim ← datePrimitive date
  let id ← getProp scan "id"
  let idText ← toStr id
  pure ("\n        <tr>\n            <td>" ++ targetText
    ++ "</td>\n            <td>" ++ typeText
    ++ "</td>\n            <td><span class=\"status " ++ statusText ++ "\">"
    ++ statusNameText
    ++ "</span></td>\n            <td>" ++ summary
    ++ "</td>\n            <td>" ++ env.localeDate datePrim
    ++ "</td>\n            <td>\n                <button class=\"action-btn view-btn\" onclick=\"showResults("
    ++ idText
    ++ ")\">\n                    <span class=\"material-icons\">visibility</span>\n                    Görüntüle\n                </button>\n                <button class=\"action-btn delete-btn\" onclick=\"deleteScan("
    ++ idText
    ++ ")\">\n                    <span class=\"material-icons\">delete</span>\n                    Sil\n                </button>\n            </td>\n        </tr>\n    ")

/-- Function `updateScanResults`: the rows are all computed before `innerHTML`
is assigned, so a throw leaves the page as it was. -/
def updateScanResults (env : Env) (page : Page) : Except JSError Page := do
  let rows ← mapE (scanRow env) page.scanHistory
  pure { page with scanResults := String.join rows }

/-- Counters built by `updateStats`. -/
structure Stats where
  totalScans : JSVal
  totalSubdomains : JSVal
  totalVulnerabilities : JSVal

/-- The method `Array.prototype.reduce` with an initial value and a callback
that may throw. -/
def reduceE (f : JSVal → JSVal → Except JSError JSVal) : JSVal → List JSVal → Except JSError JSVal
  | total, [] => .ok total
  | total, scan :: rest =>
    match f total scan with
    | .error e => .error e
    | .ok next => reduceE f next rest

/-- First reducer of `updateStats`. -/
def addSubdomains (total scan : JSVal) : Except JSError JSVal := do
  let type ← getProp scan "type"
  if strictEq type (str "subdomain") then
    let results ← getProp scan "results"
    let subdomains ← getProp results "subdomains"
    add total (orElse (optLength subdomains) (num 0))
  else
    pure total

/-- Second reducer of `updateStats`. -/
def addVulnerabilities (total scan : JSVal) : Except JSError JSVal := do
  let type ← getProp scan "type"
  if strictEq type (str "js") then
    let results ← getProp scan "results"
    let vulnerabilities ← getProp results "vulnerabilities"
    add total (orElse (optLength vulnerabilities) (num 0))
  else
    pure total

/-- The object `stats` of `updateStats`. -/
def computeStats (history : List JSVal) : Except JSError Stats := do
  let totalSubdomains ← reduceE addSubdomains (num 0) history
  let totalVulnerabilities ← reduceE addVulnerabilities (num 0) history
  pure { totalScans := num history.length,
         totalSubdomains := totalSubdomains,
         totalVulnerabilities := totalVulnerabilities }

/-- Function `updateStats`: the counters are computed first, then written to
the three elements in turn; a write that throws leaves the earlier ones done. -/
def updateStats (page : Page) : Page × Option JSError :=
  match computeStats page.scanHistory with
  | .error e => (page, some e)
  | .ok stats =>
    match textContent stats.totalScans with
    | .error e => (page, some e)
    | .ok scans =>
      let first := { page with statValues := (scans, page.statValues.2.1, page.statValues.2.2) }
      match textContent stats.totalSubdomains with
      | .error e => (first, some e)
      | .ok subdomains =>
        let second := { first with statValues := (scans, subdomains, page.statValues.2.2) }
        match textContent stats.totalVulnerabilities with
        | .error e => (second, some e)
        | .ok vulnerabilities =>
          ({ second with statValues := (scans, subdomains, vulnerabilities) }, none)

/-- The method `Array.prototype.find` with the callback `s => s.id === scanId`;
`undefined` when no element matches. -/
def findScan (scanId : JSVal) : List JSVal → Except JSError JSVal
  | [] => .ok undefined
  | s :: rest =>
    match getProp s "id" with
    | .error e => .error e
    | .ok id => if strictEq id scanId then .ok s else findScan scanId rest

/-- Detail markup of a subdomain record. -/
def subdomainDetail (scan : JSVal) : Except JSError String := do
  let results ← getProp scan "results"
  let totalCount ← getProp results "total_count"
  let totalText ← toStr totalCount
  let toolsUsed ← getProp results "tools_used"
  let tools ← callJoin "scan.results.tools_used" toolsUsed ", "
  let subdomains ← getProp results "subdomains"
  let items ← callMapJoin "scan.results.subdomains" subdomains (fun subdomain => do
    let text ← toStr subdomain
    let href ← toStr subdomain
    pure ("\n                <div class=\"result-item\">\n                    <span><span class=\"material-icons\">public</span>"
      ++ text
      ++ "</span>\n                    <a href=\"http://" ++ href
      ++ "\" target=\"_blank\" class=\"action-btn view-btn\">\n                        <span class=\"material-icons\">open_in_new</span>\n                        Aç\n                    </a>\n                </div>\n            "))
  pure ("\n            <h3>Bulunan Subdomainler (" ++ totalText
    ++ ")</h3>\n            <p>Kullanılan Araçlar: " ++ tools
    ++ "</p>\n            " ++ items ++ "\n        ")

/-- Detail markup of a directory record. -/
def directoryDetail (scan : JSVal) : Except JSError String := do
  let results ← getProp scan "results"
  let directories ← getProp results "directories"
  let items ← callMapJoin "scan.results.directories" directories (fun dir => do
    let url ← getProp dir "url"
    let urlText ← toStr url
    let status ← getProp dir "status"
    let statusText ← toStr status
    let statusName ← getStatusName status
    let statusNameText ← statusName.toStr
    pure ("\n                <div class=\"result-item\">\n                    <span><span class=\"material-icons\">folder</span>"
      ++ urlText
      ++ "</span>\n                    <span class=\"status " ++ statusText ++ "\">"
      ++ statusNameText
      ++ "</span>\n                </div>\n            "))
  pure ("\n            <h3>Bulunan Dizinler</h3>\n            " ++ items ++ "\n        ")

/-- Detail markup of a JavaScript analysis record. -/
def jsDetail (scan : JSVal) : Except JSError String := do
  let results ← getProp scan "results"
  let jsFiles ← getProp results "js_files"
  let items ← callMapJoin "scan.results.js_files" jsFiles (fun file => do
    let text ← toStr file
    pure ("\n                <div class=\"result-item\">\n                    <span><span class=\"material-icons\">code</span>"
      ++ text
      ++ "</span>\n                </div>\n            "))
  pure ("\n            <h3>JS Dosya Analizi</h3>\n            " ++ items ++ "\n        ")

/-- The string `resultsHTML` of `showResults` for the record found. -/
def detailMarkup (scan : JSVal) : Except JSError String := do
  let type ← getProp scan "type"
  if strictEq type (str "subdomain") then subdomainDetail scan
  else if strictEq type (str "directory") then directoryDetail scan
  else if strictEq type (str "js") then jsDetail scan
  else pure ""

/-- Function `showResults`: nothing is written when no record is found or
when building the markup throws. -/
def showResults (page : Page) (scanId : JSVal) : Except JSError Page := do
  let scan ← findScan scanId page.scanHistory
  if !scan.truthy then
    pure page
  else
    let resultsHTML ← detailMarkup scan
    pure { page with resultsContainer := resultsHTML, resultsModal := "block" }

/-- The method `Array.prototype.filter` with the callback
`scan => scan.id !== scanId`. -/
def filterOut (scanId : JSVal) : List JSVal → Except JSError (List JSVal)
  | [] => .ok []
  | scan :: rest =>
    match getProp scan "id" with
    | .error e => .error e
    | .ok id =>
      match filterOut scanId rest with
      | .error e => .error e
      | .ok kept => .ok (if !strictEq id scanId then scan :: kept else kept)

/-- Write-through of the history: `localStorage.setItem('scanHistory',
JSON.stringify(scanHistory))`. -/
def persist (page : Page) : Page :=
  { page with storage := stringifyVal (arr page.scanHistory) }

/-- Function `deleteScan`.  The page reached and the exception that escaped,
if any: the handler has no `try`, so a throw of the re-rendering leaves the
deletion in place. -/
def deleteScan (env : Env) (page : Page) (scanId : JSVal) : Page × Option JSError :=
  if env.confirm then
    match filterOut scanId page.scanHistory with
    | .error e => (page, some e)
    | .ok kept =>
      let stored := persist { page with scanHistory := kept }
      match updateScanResults env stored with
      | .error e => (stored, some e)
      | .ok drawn => updateStats drawn
  else (page, none)

/-- The method `Array.prototype.unshift` with one argument. -/
def unshift (history : List JSVal) (record : JSVal) : List JSVal := record :: history

/-- The object literal `scanResult` of `startScan`. -/
def scanResult (env : Env) (type target result : JSVal) : JSVal :=
  obj [("id", num env.now), ("type", type), ("target", target),
       ("status", str "completed"), ("results", result), ("date", str env.isoNow)]

/-- The expression `data.target_domain || data.target_url`. -/
def scanTarget (data : JSVal) : Except JSError JSVal :=
  match getProp data "target_domain" with
  | .error e => .error e
  | .ok targetDomain =>
    if targetDomain.truthy then .ok targetDomain else getProp data "target_url"

/-- The `if (response.ok)` branch of `startScan` taken: the page reached and
the exception thrown, if any. -/
def commitScan (env : Env) (page : Page) (type data result : JSVal) : Page × Option JSError :=
  match scanTarget data with
  | .error e => (page, some e)
  | .ok target =>
    let record := scanResult env type target result
    let stored := persist { page with scanHistory := unshift page.scanHistory record }
    match updateScanResults env stored with
    | .error e => (stored, some e)
    | .ok drawn =>
      match updateStats drawn with
      | (counted, some e) => (counted, some e)
      | (counted, none) =>
        match showResults counted record with
        | .error e => (counted, some e)
        | .ok shown => (shown, none)

/-- Text of the error thrown by `startScan` when the body names none. -/
def genericError : String := "An error occurred during scanning"

/-- The first argument of `fetch`, as the request sees it: `endpoints[type]`
converted to a string. -/
def requestUrl (type : JSVal) : Except JSError String :=
  match index endpoints type with
  | .error e => .error e
  | .ok looked => looked.toStr

/-- The expression `new Error(result.error || '...')`, or what its evaluation
throws: the message of an error is its argument converted to a string. -/
def scanError (result : JSVal) : JSError :=
  match getProp result "error" with
  | .error e => e
  | .ok err =>
    match toStr (orElse err (str genericError)) with
    | .error e => e
    | .ok message => .error message

/-- The `try` block of `startScan` from `await fetch(...)` on, given what the
request came back with. -/
def scanAnswer (env : Env) (page : Page) (type data : JSVal) (out : FetchOutcome) :
    Page × Option JSError :=
  match out with
  | .rejected e => (page, some e)
  | .response _ (.error e) => (page, some e)
  | .response status (.ok result) =>
    if responseOk status then commitScan env page type data result
    else (page, some (scanError result))

/-- The `try` block of `startScan` after the two display assignments. -/
def scanBody (env : Env) (page : Page) (type data : JSVal) : Page × Option JSError :=
  match requestUrl type with
  | .error e => (page, some e)
  | .ok url => scanAnswer env page type data (env.fetch url data)

/-- Function `startScan`: `try` block, `catch` with `alert(error.message)`,
`finally` hiding the loading overlay. -/
def startScan (env : Env) (page : Page) (type data : JSVal) : Page :=
  let outcome := scanBody env { page with loadingOverlay := "flex", scanModal := "none" } type data
  let caught :=
    match outcome.2 with
    | none => outcome.1
    | some e => { outcome.1 with alerts := outcome.1.alerts ++ [e.message] }
  { caught with loadingOverlay := "none" }

/-! ## `JSON.parse`

The parser is a pair of automata, each consuming its input one symbol at a
time: a lexer over the characters and a stack machine over the tokens.  A
text the grammar rejects is an `invalid` failure (the call throws SyntaxError).
A text holding a number that is not an integer, or an escaped lone surrogate,
denotes no value of `JSVal`; it is flagged `outside` and nothing is said
about it. -/

/-- Why a text yields no value of the model. -/
inductive ParseError where
  | invalid
  | outside

/-- Tokens of the JSON grammar; strings, numbers and the three literal names
come as values. -/
inductive Token where
  | lbrace
  | rbrace
  | lbrack
  | rbrack
  | comma
  | colon
  | lit (v : JSVal)

/-- State of the lexer: between tokens, inside a literal name, inside a
number, inside a string (with the high surrogate of a pair still open),
after a backslash, inside the four digits of a unicode escape.  Characters
read so far are kept newest first. -/
inductive LexMode where
  | top
  | word (acc : List Char)
  | number (acc : List Char)
  | string (acc : List Char) (high : Option Nat)
  | escape (acc : List Char) (high : Option Nat)
  | unicode (acc : List Char) (high : Option Nat) (digits : List Nat)

/-- The literal names `true`, `false` and `null`. -/
def finishWord (acc : List Char) : Except ParseError Token :=
  if acc.reverse = ['t', 'r', 'u', 'e'] then .ok (.lit (bool true))
  else if acc.reverse = ['f', 'a', 'l', 's', 'e'] then .ok (.lit (bool false))
  else if acc.reverse = ['n', 'u', 'l', 'l'] then .ok (.lit null)
  else .error .invalid

/-- Value of a list of decimal digits. -/
def digitsValue (digits : List Char) : Nat :=
  digits.foldl (fun n c => 10 * n + (c.toNat - 48)) 0

/-- Exponent part of a number, after the fraction: nothing, or `e` or `E`, an
optional sign and at least one digit up to the end. -/
def parseExponent (cs : List Char) : Except ParseError Int :=
  match cs with
  | [] => .ok 0
  | c :: rest =>
    if c = 'e' ∨ c = 'E' then
      let negative := rest.head? = some '-'
      let digits := if rest.head? = some '-' ∨ rest.head? = some '+' then rest.tail else rest
      if digits ≠ [] ∧ digits.all Char.isDigit then
        .ok (if negative then -(digitsValue digits : Int) else (digitsValue digits : Int))
      else .error .invalid
    else .error .invalid

/-- A number of the JSON grammar without its sign, kept when it is an integer:
digits without a leading zero, an optional fraction of at least one digit and
an optional exponent. -/
def parseUnsigned (cs : List Char) : Except ParseError Nat :=
  let whole := cs.takeWhile Char.isDigit
  let afterWhole := cs.dropWhile Char.isDigit
  if whole = [] ∨ (whole.head? = some '0' ∧ whole.length ≠ 1) then .error .invalid
  else
    let fraction := if afterWhole.head? = some '.' then afterWhole.tail.takeWhile Char.isDigit else []
    let afterFraction :=
      if afterWhole.head? = some '.' then afterWhole.tail.dropWhile Char.isDigit else afterWhole
    if afterWhole.head? = some '.' ∧ fraction = [] then .error .invalid
    else
      match parseExponent afterFraction with
      | .error e => .error e
      | .ok exponent =>
        let mantissa := digitsValue (whole ++ fraction)
        let shift : Int := exponent - fraction.length
        if 0 ≤ shift then .ok (mantissa * 10 ^ shift.toNat)
        else if mantissa % 10 ^ (-shift).toNat = 0 then .ok (mantissa / 10 ^ (-shift).toNat)
        else .error .outside

/-- A number of the JSON grammar, kept when it is an integer. -/
def parseNumber (cs : List Char) : Except ParseError Int :=
  if cs.head? = some '-' then
    match parseUnsigned cs.tail with
    | .error e => .error e
    | .ok n => .ok (-(n : Int))
  else
    match parseUnsigned cs with
    | .error e => .error e
    | .ok n => .ok (n : Int)

/-- Token of a finished number. -/
def finishNumber (acc : List Char) : Except ParseError Token :=
  match parseNumber acc.reverse with
  | .error e => .error e
  | .ok n => .ok (.lit (num n))

/-- Value of one hexadecimal digit. -/
def hexValue (c : Char) : Option Nat :=
  if c.isDigit then some (c.toNat - 48)
  else if 'a' ≤ c ∧ c ≤ 'f' then some (c.toNat - 87)
  else if 'A' ≤ c ∧ c ≤ 'F' then some (c.toNat - 55)
  else none

/-- One character between tokens. -/
def topStep (c : Char) : Except ParseError (LexMode × List Token) :=
  if c = ' ' ∨ c = '\t' ∨ c = '\n' ∨ c = '\r' then .ok (.top, [])
  else if c = '\x7b' then .ok (.top, [.lbrace])
  else if c = '\x7d' then .ok (.top, [.rbrace])
  else if c = '[' then .ok (.top, [.lbrack])
  else if c = ']' then .ok (.top, [.rbrack])
  else if c = ',' then .ok (.top, [.comma])
  else if c = ':' then .ok (.top, [.colon])
  else if c = '"' then .ok (.string [] none, [])
  else if c = '-' ∨ c.isDigit then .ok (.number [c], [])
  else if c.isLower then .ok (.word [c], [])
  else .error .invalid

/-- A character appended to a string under construction; an open high
surrogate not followed by its low half is a lone surrogate. -/
def pushChar (acc : List Char) (high : Option Nat) (c : Char) :
    Except ParseError (LexMode × List Token) :=
  match high with
  | some _ => .error .outside
  | none => .ok (.string (c :: acc) none, [])

/-- A UTF-16 code unit given by a unicode escape. -/
def pushUnit (acc : List Char) (high : Option Nat) (unit : Nat) :
    Except ParseError (LexMode × List Token) :=
  match high with
  | some hi =>
    if 56320 ≤ unit ∧ unit ≤ 57343 then
      .ok (.string (Char.ofNat (65536 + (hi - 55296) * 1024 + (unit - 56320)) :: acc) none, [])
    else .error .outside
  | none =>
    if 55296 ≤ unit ∧ unit ≤ 56319 then .ok (.string acc (some unit), [])
    else if 56320 ≤ unit ∧ unit ≤ 57343 then .error .outside
    else .ok (.string (Char.ofNat unit :: acc) none, [])

/-- One step of the lexer. -/
def lexStep (mode : LexMode) (c : Char) : Except ParseError (LexMode × List Token) :=
  match mode with
  | .top => topStep c
  | .word acc =>
    if c.isLower then .ok (.word (c :: acc), [])
    else
      match finishWord acc, topStep c with
      | .ok tok, .ok (next, toks) => .ok (next, tok :: toks)
      | .error e, _ => .error e
      | _, .error e => .error e
  | .number acc =>
    if c.isDigit ∨ c = '.' ∨ c = 'e' ∨ c = 'E' ∨ c = '+' ∨ c = '-' then
      .ok (.number (c :: acc), [])
    else
      match finishNumber acc, topStep c with
      | .ok tok, .ok (next, toks) => .ok (next, tok :: toks)
      | .error e, _ => .error e
      | _, .error e => .error e
  | .string acc high =>
    if c = '"' then
      match high with
      | some _ => .error .outside
      | none => .ok (.top, [.lit (str (String.mk acc.reverse))])
    else if c = '\\' then .ok (.escape acc high, [])
    else if c.toNat < 32 then .error .invalid
    else pushChar acc high c
  | .escape acc high =>
    if c = 'u' then .ok (.unicode acc high [], [])
    else if c = '"' ∨ c = '\\' ∨ c = '/' then pushChar acc high c
    else if c = 'b' then pushChar acc high (Char.ofNat 8)
    else if c = 'f' then pushChar acc high (Char.ofNat 12)
    else if c = 'n' then pushChar acc high '\n'
    else if c = 'r' then pushChar acc high '\r'
    else if c = 't' then pushChar acc high '\t'
    else .error .invalid
  | .unicode acc high digits =>
    match hexValue c with
    | none => .error .invalid
    | some d =>
      if digits.length < 3 then .ok (.unicode acc high (digits ++ [d]), [])
      else pushUnit acc high ((digits ++ [d]).foldl (fun n x => 16 * n + x) 0)

/-- End of the text. -/
def lexEnd (mode : LexMode) : Except ParseError (List Token) :=
  match mode with
  | .top => .ok []
  | .word acc =>
    match finishWord acc with
    | .error e => .error e
    | .ok tok => .ok [tok]
  | .number acc =>
    match finishNumber acc with
    | .error e => .error e
    | .ok tok => .ok [tok]
  | _ => .error .invalid

/-- Tokens already produced, in front of the tokens of the rest of the text. -/
def prepend (toks : List Token) (rest : Except ParseError (List Token)) :
    Except ParseError (List Token) :=
  match rest with
  | .error e => .error e
  | .ok more => .ok (toks ++ more)

/-- The lexer: all tokens of a text. -/
def lexAll : LexMode → List Char → Except ParseError (List Token)
  | mode, [] => lexEnd mode
  | mode, c :: cs =>
    match lexStep mode c with
    | .error e => .error e
    | .ok (next, toks) => prepend toks (lexAll next cs)

/-- An array or object under construction: elements read so far newest
first; properties in order, with the key waiting for its value. -/
inductive Frame where
  | arr (acc : List JSVal)
  | obj (acc : List (String × JSVal)) (key : Option String)

/-- What the grammar allows next. -/
inductive Expect where
  | value
  | valueOrClose
  | commaOrBracket
  | keyOrClose
  | key
  | colon
  | commaOrBrace
  | done (v : JSVal)

/-- State of the stack machine. -/
structure ParseState where
  stack : List Frame
  expect : Expect

/-- Define property `key`: a repeated key keeps its place and takes the new
value. -/
def setField (fields : List (String × JSVal)) (key : String) (v : JSVal) :
    List (String × JSVal) :=
  if fields.any (fun kv => kv.1 == key) then
    fields.map (fun kv => if kv.1 == key then (key, v) else kv)
  else fields ++ [(key, v)]

/-- A value is complete: it goes into the enclosing array or object, or is
the result. -/
def complete (stack : List Frame) (v : JSVal) : Except ParseError ParseState :=
  match stack with
  | [] => .ok { stack := [], expect := .done v }
  | .arr acc :: rest => .ok { stack := .arr (v :: acc) :: rest, expect := .commaOrBracket }
  | .obj acc (some key) :: rest =>
    .ok { stack := .obj (setField acc key v) none :: rest, expect := .commaOrBrace }
  | .obj _ none :: _ => .error .invalid

/-- Close the array on top of the stack. -/
def closeArray (stack : List Frame) : Except ParseError ParseState :=
  match stack with
  | .arr acc :: rest => complete rest (arr acc.reverse)
  | _ => .error .invalid

/-- Close the object on top of the stack. -/
def closeObject (stack : List Frame) : Except ParseError ParseState :=
  match stack with
  | .obj acc none :: rest => complete rest (obj acc)
  | _ => .error .invalid

/-- Start of a value. -/
def beginValue (stack : List Frame) (tok : Token) : Except ParseError ParseState :=
  match tok with
  | .lit v => complete stack v
  | .lbrack => .ok { stack := .arr [] :: stack, expect := .valueOrClose }
  | .lbrace => .ok { stack := .obj [] none :: stack, expect := .keyOrClose }
  | _ => .error .invalid

/-- A property name. -/
def beginKey (stack : List Frame) (tok : Token) : Except ParseError ParseState :=
  match tok, stack with
  | .lit (str key), .obj acc none :: rest =>
    .ok { stack := .obj acc (some key) :: rest, expect := .colon }
  | _, _ => .error .invalid

/-- One step of the stack machine. -/
def parseStep (st : ParseState) (tok : Token) : Except ParseError ParseState :=
  match st.expect, tok with
  | .value, tok => beginValue st.stack tok
  | .valueOrClose, .rbrack => closeArray st.stack
  | .valueOrClose, tok => beginValue st.stack tok
  | .commaOrBracket, .comma => .ok { st with expect := .value }
  | .commaOrBracket, .rbrack => closeArray st.stack
  | .keyOrClose, .rbrace => closeObject st.stack
  | .keyOrClose, tok => beginKey st.stack tok
  | .key, tok => beginKey st.stack tok
  | .colon, .colon => .ok { st with expect := .value }
  | .commaOrBrace, .comma => .ok { st with expect := .key }
  | .commaOrBrace, .rbrace => closeObject st.stack
  | _, _ => .error .invalid

/-- The stack machine over all tokens; the text must end right after one
complete value. -/
def parseAll : ParseState → List Token → Except ParseError JSVal
  | st, [] =>
    match st.expect with
    | .done v => .ok v
    | _ => .error .invalid
  | st, tok :: toks =>
    match parseStep st tok with
    | .error e => .error e
    | .ok next => parseAll next toks

/-- The function `JSON.parse` on a text. -/
def jsonParse (text : String) : Except ParseError JSVal :=
  match lexAll .top text.toList with
  | .error e => .error e
  | .ok toks => parseAll { stack := [], expect := .value } toks

/-- The expression `localStorage.getItem('scanHistory') || '[]'`: `getItem`
gives `null` for an absent key and the stored string otherwise, and the empty
string is falsy. -/
def storedText (storage : Option String) : String :=
  match storage with
  | none => "[]"
  | some text => if text = "" then "[]" else text

/-- Initial value of `scanHistory`:
`JSON.parse(localStorage.getItem('scanHistory') || '[]')`. -/
def loadHistory (storage : Option String) : Except ParseError JSVal :=
  jsonParse (storedText storage)

/-! ## Vocabulary of the statements -/

/-- The value is an object, as every record of the history is. -/
def isRecord : JSVal → Bool
  | obj _ => true
  | _ => false

/-- The record has id `x`: the test `scan.id === x` of `showResults` and,
negated, of `deleteScan`. -/
def hasId (x : JSVal) (scan : JSVal) : Bool := strictEq (member scan "id") x

/-- What the request of `startScan` comes back with: the outcome of `fetch` on
the URL of the scan type, or the exception thrown while that URL was built. -/
def scanOutcome (env : Env) (type data : JSVal) : Except JSError FetchOutcome :=
  match requestUrl type with
  | .error e => .error e
  | .ok url => .ok (env.fetch url data)

/-- One run of `startScan` that takes the `if (response.ok)` branch: the
environment of the run and the two arguments of the call, with the status and
the JSON body the request came back with and the target read from the payload. -/
structure ScanAttempt where
  env : Env
  type : JSVal
  data : JSVal
  status : Nat
  result : JSVal
  target : JSVal

/-- The run is what the attempt describes: the request is answered with that
status, which is 2xx, and that JSON body, and the payload names that target. -/
def ScanAttempt.succeeds (a : ScanAttempt) : Prop :=
  scanOutcome a.env a.type a.data = .ok (.response a.status (.ok a.result)) ∧
  responseOk a.status = true ∧ scanTarget a.data = .ok a.target

/-- The object `scanResult` built by the run. -/
def ScanAttempt.record (a : ScanAttempt) : JSVal := scanResult a.env a.type a.target a.result

/-- The calls of `startScan` of the attempts made one after another, each on
the page the one before left. -/
def runScans (page : Page) (attempts : List ScanAttempt) : Page :=
  attempts.foldl (fun p a => startScan a.env p a.type a.data) page

/-- The request failed: the transport rejected it or the status is not 2xx. -/
def FetchOutcome.failed : FetchOutcome → Bool
  | .rejected _ => true
  | .response status _ => !responseOk status

/-- Length of a sequence-valued field, 0 when the field is absent. -/
def seqLength : JSVal → Nat
  | arr items => items.length
  | _ => 0

/-- The field is absent or holds a sequence. -/
def seqOrAbsent : JSVal → Bool
  | undefined => true
  | arr _ => true
  | _ => false

/-- The field is absent or holds an integer. -/
def countOrAbsent : JSVal → Bool
  | undefined => true
  | num _ => true
  | _ => false

/-- The `results` of a record match its `type` (data model of the
specification), any field of the shape being allowed to be absent; a type
outside the three known ones puts no constraint on `results`. -/
def resultsMatchType (scan : JSVal) : Bool :=
  isRecord scan &&
  (if strictEq (member scan "type") (str "subdomain") then
    isRecord (member scan "results")
      && seqOrAbsent (member (member scan "results") "subdomains")
      && seqOrAbsent (member (member scan "results") "tools_used")
      && countOrAbsent (member (member scan "results") "total_count")
  else if strictEq (member scan "type") (str "directory") then
    isRecord (member scan "results")
      && seqOrAbsent (member (member scan "results") "directories")
  else if strictEq (member scan "type") (str "js") then
    isRecord (member scan "results")
      && seqOrAbsent (member (member scan "results") "js_files")
      && seqOrAbsent (member (member scan "results") "vulnerabilities")
  else true)

/-- A success body of the subdomain endpoint: `subdomains` and `tools_used`
sequences, `total_count` an integer. -/
def subdomainShape (body : JSVal) : Bool :=
  isRecord body
    && (match member body "subdomains" with | arr _ => true | _ => false)
    && (match member body "tools_used" with | arr _ => true | _ => false)
    && (match member body "total_count" with | num _ => true | _ => false)

/-- Specification of `totalSubdomainsFound`, one record: the length of
`results.subdomains` for a subdomain record, 0 for any other type. -/
def subdomainsFound (scan : JSVal) : Nat :=
  if strictEq (member scan "type") (str "subdomain") then
    seqLength (member (member scan "results") "subdomains")
  else 0

/-- Specification of `totalVulnerabilitiesFound`, one record: the length of
`results.vulnerabilities` for a JavaScript analysis record, 0 for any other type. -/
def vulnerabilitiesFound (scan : JSVal) : Nat :=
  if strictEq (member scan "type") (str "js") then
    seqLength (member (member scan "results") "vulnerabilities")
  else 0

/-- Specification of the three counters (section 4.4). -/
def specStats (history : List JSVal) : Stats :=
  { totalScans := num history.length,
    totalSubdomains := num (history.map subdomainsFound).sum,
    totalVulnerabilities := num (history.map vulnerabilitiesFound).sum }

/-! ## Sample data -/

/-- An environment whose remote service answers every request with `out`. -/
def stubEnv (now : Int) (out : FetchOutcome) : Env :=
  { now := now, isoNow := "2024-01-01T00:00:00.000Z", localeDate := fun _ => "01.01.2024",
    fetch := fun _ _ => out, confirm := true }

/-- A page showing the given history, dialogs closed. -/
def pageWith (history : List JSVal) : Page :=
  { scanHistory := history, storage := none, scanModal := "none", resultsModal := "none",
    loadingOverlay := "none", scanResults := "", statValues := ("", "", ""),
    resultsContainer := "", alerts := [] }

/-- The success body of the end-to-end example of the specification. -/
def exampleBody : JSVal :=
  obj [("subdomains", arr [str "a.example.com", str "b.example.com"]),
       ("tools_used", arr [str "toolA"]), ("total_count", num 2)]

/-- The payload of the end-to-end example. -/
def examplePayload : JSVal := obj [("target_domain", str "example.com")]

/-- The remote stub of the end-to-end example, at clock 1700000000000. -/
def exampleEnv : Env := stubEnv 1700000000000 (.response 200 (.ok exampleBody))

/-- A record of a type the script does not know. -/
def whoisRecord : JSVal :=
  obj [("id", num 41), ("type", str "whois"), ("target", str "example.com"),
       ("status", str "completed"), ("results", null), ("date", str "2024-01-01T00:00:00.000Z")]

/-- A subdomain record whose results lack `tools_used`. -/
def noToolsRecord : JSVal :=
  obj [("id", num 1), ("type", str "subdomain"), ("target", str "example.com"),
       ("status", str "completed"),
       ("results", obj [("subdomains", arr [str "a.example.com"]), ("total_count", num 1)]),
       ("date", str "2024-01-01T00:00:00.000Z")]

/-- A record of an unknown type that carries the id of the record of the
end-to-end example. -/
def shadowedRecord : JSVal :=
  obj [("id", num 1700000000000), ("type", str "whois"), ("target", str "example.com"),
       ("status", str "completed"), ("results", null), ("date", str "2024-01-01T00:00:00.000Z")]

/-- A subdomain scan of example.com answered at clock 1700000000000 and a
JavaScript analysis answered one millisecond later with the body `[]`. -/
def sampleAttempts : List ScanAttempt :=
  [{ env := exampleEnv, type := str "subdomain", data := examplePayload, status := 200,
     result := exampleBody, target := str "example.com" },
   { env := stubEnv 1700000000001 (.response 201 (.ok (obj [("js_files", arr [])]))),
     type := str "js", data := obj [("target_url", str "http://example.com/app.js")],
     status := 201, result := obj [("js_files", arr [])],
     target := str "http://example.com/app.js" }]

/-- Two scans finishing at the same clock value on an empty page. -/
def twinPage : Page :=
  startScan exampleEnv (startScan exampleEnv (pageWith []) (str "subdomain") examplePayload)
    (str "subdomain") (obj [("target_domain", str "example.org")])

/-- The record created by the end-to-end example. -/
def exampleRecord : JSVal :=
  scanResult exampleEnv (str "subdomain") (str "example.com") exampleBody

/-- The page after the end-to-end example ran on an empty page. -/
def examplePage : Page :=
  startScan exampleEnv (pageWith []) (str "subdomain") examplePayload

/-- The page after a subdomain scan answered by status 200 and the body `null`. -/
def nullBodyPage : Page :=
  startScan (stubEnv 1700000000000 (.response 200 (.ok null))) (pageWith [])
    (str "subdomain") examplePayload

/-- A stored snapshot of two records, newest first. -/
def sampleSnapshot : String :=
  "[\x7b\"id\":2,\"type\":\"js\"\x7d,\x7b\"id\":1,\"type\":\"subdomain\"\x7d]"

/-- The records of `sampleSnapshot`. -/
def sampleRecords : List JSVal :=
  [obj [("id", num 2), ("type", str "js")], obj [("id", num 1), ("type", str "subdomain")]]

/-! ## Values that survive serialisation -/

mutual
/-- The value is written by `JSON.stringify` without loss: no `undefined`, no
`NaN`, and no object with a repeated key. -/
def storable : JSVal → Bool
  | .undefined => false
  | .nan => false
  | .null => true
  | .bool _ => true
  | .num _ => true
  | .str _ => true
  | .arr items => storableItems items
  | .obj fields => storableFields [] fields
termination_by structural v => v
/-- Every element is storable. -/
def storableItems : List JSVal → Bool
  | [] => true
  | x :: rest => storable x && storableItems rest
termination_by structural l => l
/-- Every property value is storable and no key is in `seen` or repeated. -/
def storableFields (seen : List String) : List (String × JSVal) → Bool
  | [] => true
  | kv :: rest => storableField seen kv && storableFields (kv.1 :: seen) rest
termination_by structural l => l
/-- One property of a storable object. -/
def storableField (seen : List String) : String × JSVal → Bool
  | (k, v) => !seen.contains k && storable v
termination_by structural kv => kv
end

mutual
/-- Tokens of the text `JSON.stringify` writes for a storable value. -/
def tokensOf : JSVal → List Token
  | .arr items => .lbrack :: (tokensOfItems items ++ [.rbrack])
  | .obj fields => .lbrace :: (tokensOfFields fields ++ [.rbrace])
  | v => [.lit v]
termination_by structural v => v
/-- Tokens of the elements of an array, commas between them. -/
def tokensOfItems : List JSVal → List Token
  | [] => []
  | x :: rest =>
    tokensOf x ++ (match rest with
                   | [] => []
                   | _ :: _ => .comma :: tokensOfItems rest)
termination_by structural l => l
/-- Tokens of the properties of an object, commas between them. -/
def tokensOfFields : List (String × JSVal) → List Token
  | [] => []
  | kv :: rest =>
    tokensOfField kv ++ (match rest with
                         | [] => []
                         | _ :: _ => .comma :: tokensOfFields rest)
termination_by structural l => l
/-- Tokens of one property. -/
def tokensOfField : String × JSVal → List Token
  | (k, v) => .lit (str k) :: .colon :: tokensOf v
termination_by structural kv => kv
end

/-- Tokens of the value of one property. -/
def tokensOfValue (kv : String × JSVal) : List Token := tokensOf kv.2

/-- Continue the stack machine after a step that may have failed. -/
def resume (step : Except ParseError ParseState) (toks : List Token) : Except ParseError JSVal :=
  match step with
  | .error e => .error e
  | .ok st => parseAll st toks

/-- What may follow a value in the text `JSON.stringify` writes: the end, a
comma or a closing bracket. -/
def delimited (rest : List Char) : Prop :=
  ∀ c, rest.head? = some c → c = ',' ∨ c = ']' ∨ c = '\x7d'

/-- The characters the lexer takes into a number once it has started. -/
def numberChar (c : Char) : Prop :=
  c.isDigit = true ∨ c = '.' ∨ c = 'e' ∨ c = 'E' ∨ c = '+' ∨ c = '-'

/-! ## Lemmas about conversions -/

theorem joinWith_error_of (sep : String) (items : List JSVal)
    (hitems : ∀ x ∈ items, ∀ e, toStr x = .error e → e = conversionError) :
    ∀ e, joinWith sep items = .error e → e = conversionError := by
  induction items with
  | nil => intro e h; simp [joinWith] at h
  | cons x rest ih =>
    intro e h
    have hrest := ih (fun y hy => hitems y (List.mem_cons_of_mem _ hy))
    have hx := hitems x (List.mem_cons_self _ _)
    have step : ∀ first : Except JSError String,
        (∀ e2, first = .error e2 → e2 = conversionError) →
        (match first with
          | .error e2 => Except.error e2
          | .ok text =>
            match rest with
            | [] => Except.ok text
            | _ :: _ =>
              match joinWith sep rest with
              | .error e2 => Except.error e2
              | .ok others => Except.ok (text ++ sep ++ others)) = Except.error e →
        e = conversionError := by
      intro first hfirst hm
      cases first with
      | error e2 => cases hm; exact hfirst _ rfl
      | ok text =>
        cases hr : rest with
        | nil => rw [hr] at hm; cases hm
        | cons y more =>
          have hrest2 := hrest
          rw [hr] at hm hrest2
          simp only at hm
          cases hj : joinWith sep (y :: more) with
          | error e2 => rw [hj] at hm; cases hm; exact hrest2 _ hj
          | ok others => rw [hj] at hm; cases hm
    cases x with
    | undefined => exact step (.ok "") (fun _ h2 => by cases h2) (by simpa only [joinWith] using h)
    | null => exact step (.ok "") (fun _ h2 => by cases h2) (by simpa only [joinWith] using h)
    | bool b => exact step (toStr (bool b)) hx (by simpa only [joinWith] using h)
    | num n => exact step (toStr (num n)) hx (by simpa only [joinWith] using h)
    | nan => exact step (toStr nan) hx (by simpa only [joinWith] using h)
    | str t => exact step (toStr (str t)) hx (by simpa only [joinWith] using h)
    | arr l => exact step (toStr (arr l)) hx (by simpa only [joinWith] using h)
    | obj l => exact step (toStr (obj l)) hx (by simpa only [joinWith] using h)

/-- The only exception a conversion to a string throws is the TypeError of an
object that cannot be converted to a primitive value. -/
theorem toStr_error : (v : JSVal) → (e : JSError) → toStr v = .error e → e = conversionError
  | .undefined, e, h => by simp [toStr] at h
  | .null, e, h => by simp [toStr] at h
  | .bool _, e, h => by simp [toStr] at h
  | .num _, e, h => by simp [toStr] at h
  | .nan, e, h => by simp [toStr] at h
  | .str _, e, h => by simp [toStr] at h
  | .arr items, e, h => by
    rw [toStr] at h
    exact joinWith_error_of "," items (fun x _ e2 h2 => toStr_error x e2 h2) e h
  | .obj fields, e, h => by
    rw [toStr] at h
    split at h
    · cases h; rfl
    · cases h
termination_by v => sizeOf v
decreasing_by
  simp_wf
  have := List.sizeOf_lt_of_mem ‹_ ∈ items›
  omega

/-! ## Lemmas about the value layer -/

theorem getProp_of_isRecord {s : JSVal} (hs : isRecord s = true) (key : String) :
    getProp s key = .ok (member s key) := by
  cases s <;> simp_all [isRecord, getProp, nullish]

theorem strictEq_obj (x : JSVal) (fields : List (String × JSVal)) :
    strictEq x (obj fields) = false := by
  cases x <;> rfl

theorem strictEq_str_iff (x : JSVal) (s : String) : strictEq x (str s) = true ↔ x = str s := by
  cases x <;> simp [strictEq]

/-! ## Lemmas about the handlers -/

theorem updateScanResults_ok {env : Env} {p q : Page} (h : updateScanResults env p = .ok q) :
    ∃ html, q = { p with scanResults := html } := by
  simp only [updateScanResults, bind, Except.bind] at h
  split at h
  · cases h
  · simp only [pure, Except.pure] at h
    cases h
    exact ⟨_, rfl⟩

theorem updateStats_page (p : Page) :
    ∃ texts, (updateStats p).1 = { p with statValues := texts } := by
  simp only [updateStats]
  split
  · exact ⟨p.statValues, rfl⟩
  · split
    · exact ⟨p.statValues, rfl⟩
    · split
      · exact ⟨_, rfl⟩
      · split <;> exact ⟨_, rfl⟩

theorem findScan_obj {fields : List (String × JSVal)} {history : List JSVal} {s : JSVal}
    (h : findScan (obj fields) history = .ok s) : s = undefined := by
  induction history with
  | nil => simp only [findScan] at h; cases h; rfl
  | cons t rest ih =>
    simp only [findScan] at h
    split at h
    · cases h
    · rw [strictEq_obj] at h
      exact ih h

theorem showResults_obj {p q : Page} {fields : List (String × JSVal)}
    (h : showResults p (obj fields) = .ok q) : q = p := by
  simp only [showResults, bind, Except.bind] at h
  split at h
  · cases h
  · rename_i s hs
    have := findScan_obj hs
    subst this
    simp only [truthy, pure, Except.pure] at h
    cases h
    rfl

theorem filterOut_eq_filter (x : JSVal) (h : List JSVal) (hrec : ∀ s ∈ h, isRecord s = true) :
    filterOut x h = .ok (h.filter (fun s => !hasId x s)) := by
  induction h with
  | nil => rfl
  | cons s rest ih =>
    have hs : isRecord s = true := hrec s (List.mem_cons_self _ _)
    have hrest : ∀ t ∈ rest, isRecord t = true := fun t ht => hrec t (List.mem_cons_of_mem _ ht)
    simp only [filterOut, getProp_of_isRecord hs, ih hrest, List.filter_cons, hasId]

theorem deleteScan_history (env : Env) (page : Page) (x : JSVal) (hc : env.confirm = true)
    (hrec : ∀ s ∈ page.scanHistory, isRecord s = true) :
    (deleteScan env page x).1.scanHistory = page.scanHistory.filter (fun s => !hasId x s) := by
  simp only [deleteScan, hc, if_true, filterOut_eq_filter x _ hrec]
  cases h1 : updateScanResults env (persist _) with
  | error e => rfl
  | ok drawn =>
    obtain ⟨html, rfl⟩ := updateScanResults_ok h1
    dsimp only
    obtain ⟨texts, ht⟩ := updateStats_page
      { persist { page with scanHistory := page.scanHistory.filter (fun s => !hasId x s) } with
        scanResults := html }
    rw [ht]
    rfl

/-- The page reached by the success branch: the record is at the head of the
history and the snapshot is rewritten; only the table and the counters may
differ further, and the detail dialog is never touched. -/
theorem commitScan_page (env : Env) (page : Page) (type data result target : JSVal)
    (ht : scanTarget data = .ok target) :
    ∃ html texts, (commitScan env page type data result).1 =
      { persist { page with
          scanHistory := unshift page.scanHistory (scanResult env type target result) } with
        scanResults := html, statValues := texts } := by
  simp only [commitScan, ht]
  cases h1 : updateScanResults env (persist _) with
  | error e => exact ⟨_, _, rfl⟩
  | ok drawn =>
    obtain ⟨html, rfl⟩ := updateScanResults_ok h1
    dsimp only
    obtain ⟨texts, hst⟩ := updateStats_page
      { persist { page with
          scanHistory := unshift page.scanHistory (scanResult env type target result) } with
        scanResults := html }
    cases h2 : updateStats _ with
    | mk counted thrown =>
      rw [h2] at hst
      simp only at hst
      subst hst
      cases thrown with
      | some e => exact ⟨html, texts, rfl⟩
      | none =>
        dsimp only
        cases h3 : showResults _ (scanResult env type target result) with
        | error e => exact ⟨html, texts, rfl⟩
        | ok shown =>
          have := showResults_obj h3
          subst this
          exact ⟨html, texts, rfl⟩

theorem add_num (a b : Int) : add (num a) (num b) = .ok (num (a + b)) := rfl

theorem orElse_length (a : Int) (items : List JSVal) :
    add (num a) (orElse (optLength (arr items)) (num 0)) = .ok (num (a + items.length)) := by
  cases items with
  | nil => rfl
  | cons x rest =>
    have : (num ((x :: rest).length : Nat)).truthy = true := by
      simp only [truthy, List.length_cons]
      have : ((rest.length + 1 : Nat) : Int) ≠ 0 := by omega
      simpa using this
    simp only [optLength, nullish, member, orElse, this, if_true, add_num]
    rfl

theorem addSubdomains_of_shape (a : Int) (s : JSVal) (hs : resultsMatchType s = true) :
    addSubdomains (num a) s = .ok (num (a + subdomainsFound s)) := by
  have hrec : isRecord s = true := by
    simp only [resultsMatchType, Bool.and_eq_true] at hs
    exact hs.1
  simp only [addSubdomains, subdomainsFound, getProp_of_isRecord hrec, bind, Except.bind]
  cases hT : strictEq (member s "type") (str "subdomain") with
  | false => simp [pure, Except.pure]
  | true =>
    simp only [resultsMatchType, hT, if_true, Bool.and_eq_true] at hs
    obtain ⟨-, ⟨⟨hres, hsub⟩, -⟩, -⟩ := hs
    simp only [if_true, getProp_of_isRecord hres, pure, Except.pure]
    cases hv : member (member s "results") "subdomains" <;> simp_all [seqOrAbsent]
    · rfl
    · exact orElse_length _ _

theorem addVulnerabilities_of_shape (a : Int) (s : JSVal) (hs : resultsMatchType s = true) :
    addVulnerabilities (num a) s = .ok (num (a + vulnerabilitiesFound s)) := by
  have hrec : isRecord s = true := by
    simp only [resultsMatchType, Bool.and_eq_true] at hs
    exact hs.1
  simp only [addVulnerabilities, vulnerabilitiesFound, getProp_of_isRecord hrec, bind,
    Except.bind]
  cases hT : strictEq (member s "type") (str "js") with
  | false => simp [pure, Except.pure]
  | true =>
    have hty : member s "type" = str "js" := (strictEq_str_iff _ _).mp hT
    simp only [resultsMatchType, hty, strictEq, Bool.and_eq_true] at hs
    simp only [show (("js" : String) == "subdomain") = false from by decide,
      show (("js" : String) == "directory") = false from by decide,
      show (("js" : String) == "js") = true from by decide, if_true, Bool.false_eq_true,
      if_false, Bool.and_eq_true] at hs
    obtain ⟨-, ⟨hres, -⟩, hvul⟩ := hs
    simp only [if_true, getProp_of_isRecord hres, pure, Except.pure]
    cases hv : member (member s "results") "vulnerabilities" <;> simp_all [seqOrAbsent]
    · rfl
    · exact orElse_length _ _

theorem reduceE_sum (f : JSVal → JSVal → Except JSError JSVal) (g : JSVal → Nat)
    (history : List JSVal)
    (hstep : ∀ (a : Int), ∀ s ∈ history, f (num a) s = .ok (num (a + g s))) (a : Int) :
    reduceE f (num a) history = .ok (num (a + (history.map g).sum)) := by
  induction history generalizing a with
  | nil => simp [reduceE]
  | cons s rest ih =>
    have h1 := hstep a s (List.mem_cons_self _ _)
    have h2 := ih (fun b t ht => hstep b t (List.mem_cons_of_mem _ ht)) (a + g s)
    simp only [reduceE, h1, h2, List.map_cons, List.sum_cons]
    congr 2
    push_cast
    ring

theorem computeStats_of_shape (history : List JSVal)
    (hshape : ∀ s ∈ history, resultsMatchType s = true) :
    computeStats history = .ok (specStats history) := by
  have h1 := reduceE_sum addSubdomains subdomainsFound history
    (fun a s hs => addSubdomains_of_shape a s (hshape s hs)) 0
  have h2 := reduceE_sum addVulnerabilities vulnerabilitiesFound history
    (fun a s hs => addVulnerabilities_of_shape a s (hshape s hs)) 0
  simp only [computeStats, bind, Except.bind, h1, h2, pure, Except.pure, specStats, zero_add]

theorem add_str_left (t : String) (w v : JSVal) (h : add (str t) w = .ok v) :
    ∃ u, v = str u := by
  simp only [add, stringLike, Bool.true_or, if_true, toStr] at h
  split at h
  · cases h
  · cases h
    exact ⟨_, rfl⟩

/-- Adding a truthy value, or 0, to a number: the sum from a shifted start is
the same sum shifted, or the result is a string. -/
theorem add_num_shift (a k : Int) (w v : JSVal) (hw : w.truthy = true ∨ w = num 0)
    (h : add (num a) w = .ok v) :
    (∃ b, v = num b ∧ add (num (a + k)) w = .ok (num (b + k))) ∨ (∃ u, v = str u) := by
  cases w with
  | undefined => rcases hw with h | h <;> simp [truthy] at h
  | null => rcases hw with h | h <;> simp [truthy] at h
  | nan => rcases hw with h | h <;> simp [truthy] at h
  | bool b =>
    rcases hw with hb | hb
    · simp only [truthy] at hb
      subst hb
      simp only [add, stringLike, toNumber, Bool.or_self, Bool.false_eq_true, if_false,
        if_true] at h ⊢
      cases h
      left
      refine ⟨a + 1, rfl, ?_⟩
      congr 2
      ring
    · cases hb
  | num n =>
    simp only [add_num] at h ⊢
    cases h
    left
    refine ⟨a + n, rfl, ?_⟩
    congr 2
    ring
  | str t =>
    right
    simp only [add, stringLike, Bool.or_true, if_true, toStr] at h
    cases h
    exact ⟨_, rfl⟩
  | arr items =>
    right
    simp only [add, stringLike, Bool.or_true, if_true, toStr] at h
    split at h
    · cases h
    · cases h
      exact ⟨_, rfl⟩
  | obj fields =>
    right
    simp only [add, stringLike, Bool.or_true, if_true, toStr] at h
    split at h
    · cases h
    · cases h
      exact ⟨_, rfl⟩

theorem orElse_truthy_or_zero (x : JSVal) :
    (orElse x (num 0)).truthy = true ∨ orElse x (num 0) = num 0 := by
  simp only [orElse]
  split
  · left; assumption
  · right; rfl

/-- The subdomain counter is a number or a string at every step; a string
stays a string. -/
theorem addSubdomains_str (t : String) (s v : JSVal) (h : addSubdomains (str t) s = .ok v) :
    ∃ u, v = str u := by
  simp only [addSubdomains, bind, Except.bind] at h
  split at h
  · cases h
  · split at h
    · split at h
      · cases h
      · split at h
        · cases h
        · exact add_str_left t _ v h
    · simp only [pure, Except.pure] at h
      cases h
      exact ⟨_, rfl⟩

theorem reduceE_str (t : String) (history : List JSVal) (v : JSVal)
    (h : reduceE addSubdomains (str t) history = .ok v) : ∃ u, v = str u := by
  induction history generalizing t with
  | nil => simp only [reduceE] at h; cases h; exact ⟨_, rfl⟩
  | cons s rest ih =>
    simp only [reduceE] at h
    split at h
    · cases h
    · rename_i next hnext
      obtain ⟨u, rfl⟩ := addSubdomains_str t s next hnext
      exact ih u h

/-- One step of the subdomain reducer from a number: the outcome from a
shifted start is the same outcome shifted, or both are strings. -/
theorem addSubdomains_shift (a k : Int) (s v : JSVal) (h : addSubdomains (num a) s = .ok v) :
    (∃ b, v = num b ∧ addSubdomains (num (a + k)) s = .ok (num (b + k))) ∨ (∃ u, v = str u) := by
  simp only [addSubdomains, bind, Except.bind] at h ⊢
  split at h
  · cases h
  · rename_i type htype
    split at h
    · rename_i hT
      simp only [hT, if_true]
      split at h
      · cases h
      · rename_i results hres
        split at h
        · cases h
        · rename_i subs hsubs
          exact add_num_shift a k _ v (orElse_truthy_or_zero _) h
    · rename_i hT
      simp only [hT, pure, Except.pure] at h ⊢
      cases h
      left
      exact ⟨a, rfl, by simp⟩

theorem reduceE_shift (history : List JSVal) (a k m : Int)
    (h : reduceE addSubdomains (num a) history = .ok (num m)) :
    reduceE addSubdomains (num (a + k)) history = .ok (num (m + k)) := by
  induction history generalizing a with
  | nil => simp only [reduceE] at h ⊢; cases h; rfl
  | cons s rest ih =>
    simp only [reduceE] at h ⊢
    split at h
    · cases h
    · rename_i next hnext
      rcases addSubdomains_shift a k s next hnext with ⟨b, rfl, hb⟩ | ⟨u, rfl⟩
      · simp only [hb]
        exact ih b h
      · obtain ⟨u2, hu2⟩ := reduceE_str u rest _ h
        cases hu2

theorem findScan_first (x : JSVal) (pre post : List JSVal) (scan : JSVal)
    (hpre : ∀ s ∈ pre, isRecord s = true ∧ hasId x s = false)
    (hrec : isRecord scan = true) (hid : hasId x scan = true) :
    findScan x (pre ++ scan :: post) = .ok scan := by
  induction pre with
  | nil =>
    simp only [List.nil_append, findScan, getProp_of_isRecord hrec]
    simp only [hasId] at hid
    simp [hid]
  | cons t rest ih =>
    obtain ⟨ht, hne⟩ := hpre t (List.mem_cons_self _ _)
    simp only [hasId] at hne
    simp only [List.cons_append, findScan, getProp_of_isRecord ht, hne]
    exact ih (fun s hs => hpre s (List.mem_cons_of_mem _ hs))

theorem scanBody_of_outcome (env : Env) (page : Page) (type data : JSVal) (out : FetchOutcome)
    (hout : scanOutcome env type data = .ok out) :
    scanBody env page type data = scanAnswer env page type data out := by
  simp only [scanOutcome] at hout
  simp only [scanBody]
  cases hurl : requestUrl type with
  | error e => rw [hurl] at hout; cases hout
  | ok url =>
    rw [hurl] at hout
    cases hout
    rfl

theorem startScan_leaves_detail (env : Env) (page : Page) (type data : JSVal) :
    (startScan env page type data).resultsModal = page.resultsModal ∧
    (startScan env page type data).resultsContainer = page.resultsContainer := by
  have key : ∀ p : Page, (scanBody env p type data).1.resultsModal = p.resultsModal ∧
      (scanBody env p type data).1.resultsContainer = p.resultsContainer := by
    intro p
    simp only [scanBody]
    split
    · exact ⟨rfl, rfl⟩
    · simp only [scanAnswer]
      split
      · exact ⟨rfl, rfl⟩
      · exact ⟨rfl, rfl⟩
      · split
        · cases ht : scanTarget data with
          | error e => simp [commitScan, ht]
          | ok target =>
            obtain ⟨html, texts, hp⟩ := commitScan_page env p type data _ target ht
            rw [hp]
            exact ⟨rfl, rfl⟩
        · exact ⟨rfl, rfl⟩
  have := key { page with loadingOverlay := "flex", scanModal := "none" }
  simp only [startScan]
  split <;> exact this

/-- A 2xx answer with a JSON body: the new record is put in front of the
history with `unshift` and the snapshot is rewritten, whatever the rendering
does afterwards. -/
theorem startScan_success (env : Env) (page : Page) (type data : JSVal) (status : Nat)
    (result target : JSVal)
    (hfetch : scanOutcome env type data = .ok (.response status (.ok result)))
    (hok : responseOk status = true) (ht : scanTarget data = .ok target) :
    (startScan env page type data).scanHistory
      = unshift page.scanHistory (scanResult env type target result) ∧
    (startScan env page type data).storage
      = stringifyVal (arr (unshift page.scanHistory (scanResult env type target result))) := by
  obtain ⟨html, texts, hp⟩ := commitScan_page env
    { page with loadingOverlay := "flex", scanModal := "none" } type data result target ht
  simp only [startScan, scanBody_of_outcome env _ type data _ hfetch, scanAnswer, hok, if_true,
    hp]
  split <;> exact ⟨rfl, rfl⟩

/-- The record a subdomain scan creates from a body of the subdomain shape has
results matching its type. -/
theorem resultsMatchType_scanResult (env : Env) (target b : JSVal)
    (hshape : subdomainShape b = true) :
    resultsMatchType (scanResult env (str "subdomain") target b) = true := by
  have h1 : member (scanResult env (str "subdomain") target b) "type" = str "subdomain" := rfl
  have h2 : member (scanResult env (str "subdomain") target b) "results" = b := rfl
  simp only [subdomainShape, Bool.and_eq_true] at hshape
  obtain ⟨⟨⟨hb, hs⟩, ht⟩, hc⟩ := hshape
  simp only [resultsMatchType, h1, h2, strictEq, beq_self_eq_true, if_true, hb, Bool.and_eq_true]
  refine ⟨rfl, ⟨⟨trivial, ?_⟩, ?_⟩, ?_⟩
  · cases h : member b "subdomains" <;> simp_all [seqOrAbsent]
  · cases h : member b "tools_used" <;> simp_all [seqOrAbsent]
  · cases h : member b "total_count" <;> simp_all [countOrAbsent]

theorem runScans_cons (page : Page) (a : ScanAttempt) (rest : List ScanAttempt) :
    runScans page (a :: rest) = runScans (startScan a.env page a.type a.data) rest := rfl

/-- After a series of runs that all take the `if (response.ok)` branch the
history holds the records of the runs, last run first, in front of the
history it started from, and the snapshot is the text of that history. -/
theorem runScans_spec (attempts : List ScanAttempt) :
    ∀ page : Page, (∀ a ∈ attempts, a.succeeds) →
    (runScans page attempts).scanHistory
      = (attempts.map ScanAttempt.record).reverse ++ page.scanHistory ∧
    (attempts ≠ [] →
      (runScans page attempts).storage = stringifyVal (arr (runScans page attempts).scanHistory)) := by
  induction attempts with
  | nil => intro page _; exact ⟨rfl, fun h => absurd rfl h⟩
  | cons a rest ih =>
    intro page hs
    obtain ⟨hout, hok, ht⟩ := hs a (List.mem_cons_self _ _)
    obtain ⟨hhist, hstore⟩ := startScan_success a.env page a.type a.data a.status a.result
      a.target hout hok ht
    obtain ⟨ih1, ih2⟩ := ih (startScan a.env page a.type a.data)
      (fun b hb => hs b (List.mem_cons_of_mem _ hb))
    rw [runScans_cons]
    refine ⟨?_, fun _ => ?_⟩
    · rw [ih1, hhist]
      simp [unshift, ScanAttempt.record]
    · cases rest with
      | nil =>
        show (startScan a.env page a.type a.data).storage
          = stringifyVal (arr (startScan a.env page a.type a.data).scanHistory)
        rw [hstore, hhist]
      | cons b more => exact ih2 (by simp)

theorem foldl_unshift (h rs : List JSVal) : rs.foldl unshift h = rs.reverse ++ h := by
  induction rs generalizing h with
  | nil => rfl
  | cons r rest ih => simp [List.foldl_cons, ih, unshift]

/-! ## Round trip, token level -/

theorem setField_fresh (acc : List (String × JSVal)) (k : String) (v : JSVal)
    (hk : ∀ kv ∈ acc, kv.1 ≠ k) : setField acc k v = acc ++ [(k, v)] := by
  have : acc.any (fun kv => kv.1 == k) = false := by
    rw [List.any_eq_false]
    intro kv hkv
    simpa using hk kv hkv
  simp [setField, this]

mutual
theorem parse_tokensOf : (v : JSVal) → storable v = true →
    ∀ (stack : List Frame) (e : Expect) (toks : List Token),
      (e = .value ∨ e = .valueOrClose) →
      parseAll { stack := stack, expect := e } (tokensOf v ++ toks)
        = resume (complete stack v) toks
  | .undefined, hv, _, _, _, _ => by simp [storable] at hv
  | .nan, hv, _, _, _, _ => by simp [storable] at hv
  | .null, _, stack, e, toks, he => by
    rcases he with rfl | rfl <;> rfl
  | .bool b, _, stack, e, toks, he => by
    rcases he with rfl | rfl <;> rfl
  | .num n, _, stack, e, toks, he => by
    rcases he with rfl | rfl <;> rfl
  | .str s, _, stack, e, toks, he => by
    rcases he with rfl | rfl <;> rfl
  | .arr items, hv, stack, e, toks, he => by
    cases hitems : items with
    | nil => rcases he with rfl | rfl <;> rfl
    | cons x rest =>
      have h := parse_items items (by simpa [storable] using hv) stack [] toks .valueOrClose
        (Or.inr rfl) (by simp [hitems])
      rw [hitems] at h
      rcases he with rfl | rfl
      · simpa [tokensOf, parseAll, parseStep, beginValue] using h
      · simpa [tokensOf, parseAll, parseStep, beginValue] using h
  | .obj fields, hv, stack, e, toks, he => by
    cases hfields : fields with
    | nil => rcases he with rfl | rfl <;> rfl
    | cons kv rest =>
      have h := parse_fields fields [] (by simpa [storable] using hv) stack [] toks .keyOrClose
        (Or.inr rfl) (by simp) (by simp [hfields])
      rw [hfields] at h
      rcases he with rfl | rfl
      · simpa [tokensOf, parseAll, parseStep, beginValue] using h
      · simpa [tokensOf, parseAll, parseStep, beginValue] using h
theorem parse_items : (items : List JSVal) → storableItems items = true →
    ∀ (stack : List Frame) (acc : List JSVal) (toks : List Token) (e : Expect),
      (e = .value ∨ e = .valueOrClose) → items ≠ [] →
      parseAll { stack := .arr acc :: stack, expect := e }
          (tokensOfItems items ++ .rbrack :: toks)
        = resume (complete stack (arr (acc.reverse ++ items))) toks
  | [], _, _, _, _, _, _, hne => absurd rfl hne
  | x :: rest, hs, stack, acc, toks, e, he, _ => by
    have hx : storable x = true := by
      simp only [storableItems, Bool.and_eq_true] at hs
      exact hs.1
    have hrest : storableItems rest = true := by
      simp only [storableItems, Bool.and_eq_true] at hs
      exact hs.2
    cases hr : rest with
    | nil =>
      have h := parse_tokensOf x hx (.arr acc :: stack) e (.rbrack :: toks) he
      simp only [tokensOfItems, List.append_nil]
      rw [h]
      simp [resume, complete, parseAll, parseStep, closeArray]
    | cons y more =>
      have h := parse_tokensOf x hx (.arr acc :: stack) e
        (.comma :: (tokensOfItems (y :: more) ++ .rbrack :: toks)) he
      have ih := parse_items rest hrest stack (x :: acc) toks .value (Or.inl rfl)
        (by simp [hr])
      rw [hr] at ih
      have htoks : tokensOfItems (x :: y :: more) ++ .rbrack :: toks
          = tokensOf x ++ .comma :: (tokensOfItems (y :: more) ++ .rbrack :: toks) := by
        simp [tokensOfItems]
      rw [htoks, h]
      simp only [resume, complete, parseAll, parseStep]
      simpa using ih
theorem parse_fields : (fields : List (String × JSVal)) → (seen : List String) →
    storableFields seen fields = true →
    ∀ (stack : List Frame) (acc : List (String × JSVal)) (toks : List Token) (e : Expect),
      (e = .key ∨ e = .keyOrClose) → (∀ p ∈ acc, p.1 ∈ seen) → fields ≠ [] →
      parseAll { stack := .obj acc none :: stack, expect := e }
          (tokensOfFields fields ++ .rbrace :: toks)
        = resume (complete stack (obj (acc ++ fields))) toks
  | [], _, _, _, _, _, _, _, _, hne => absurd rfl hne
  | kv :: rest, seen, hs, stack, acc, toks, e, he, hacc, _ => by
    have hkv : storableField seen kv = true ∧ storableFields (kv.1 :: seen) rest = true := by
      simpa [storableFields] using hs
    have hfresh : ∀ p ∈ acc, p.1 ≠ kv.1 := by
      intro p hp hpk
      have hmem := hacc p hp
      rw [hpk] at hmem
      have hc : seen.contains kv.1 = true := by simpa using hmem
      have hn : seen.contains kv.1 = false := by
        have := hkv.1
        cases kv
        simp only [storableField, Bool.and_eq_true, Bool.not_eq_true'] at this
        exact this.1
      rw [hn] at hc
      cases hc
    have hset : setField acc kv.1 kv.2 = acc ++ [kv] := by
      rw [setField_fresh acc kv.1 kv.2 hfresh]
    cases hr : rest with
    | nil =>
      have h := parse_field kv seen hkv.1 stack acc (.rbrace :: toks)
      have htoks : tokensOfFields [kv] ++ .rbrace :: toks
          = .lit (str kv.1) :: .colon :: (tokensOfValue kv ++ .rbrace :: toks) := by
        cases kv
        simp [tokensOfFields, tokensOfField, tokensOfValue]
      rw [htoks]
      rcases he with rfl | rfl
      · simp only [parseAll, parseStep, beginKey]
        rw [h]
        simp [resume, complete, parseAll, parseStep, closeObject, hset]
      · simp only [parseAll, parseStep, beginKey]
        rw [h]
        simp [resume, complete, parseAll, parseStep, closeObject, hset]
    | cons kv2 more =>
      have h := parse_field kv seen hkv.1 stack acc
        (.comma :: (tokensOfFields (kv2 :: more) ++ .rbrace :: toks))
      have ih := parse_fields rest (kv.1 :: seen) hkv.2 stack (acc ++ [kv]) toks .key
        (Or.inl rfl) (by
          intro p hp
          rcases List.mem_append.mp hp with hp | hp
          · exact List.mem_cons_of_mem _ (hacc p hp)
          · simp only [List.mem_singleton] at hp
            subst hp
            exact List.mem_cons_self _ _) (by simp [hr])
      rw [hr] at ih
      have htoks : tokensOfFields (kv :: kv2 :: more) ++ .rbrace :: toks
          = .lit (str kv.1) :: .colon ::
              (tokensOfValue kv ++ .comma :: (tokensOfFields (kv2 :: more) ++ .rbrace :: toks)) := by
        cases kv
        simp [tokensOfFields, tokensOfField, tokensOfValue]
      rw [htoks]
      rcases he with rfl | rfl
      · simp only [parseAll, parseStep, beginKey]
        rw [h]
        simp only [resume, complete, parseAll, parseStep, hset]
        simpa using ih
      · simp only [parseAll, parseStep, beginKey]
        rw [h]
        simp only [resume, complete, parseAll, parseStep, hset]
        simpa using ih
theorem parse_field : (kv : String × JSVal) → (seen : List String) →
    storableField seen kv = true →
    ∀ (stack : List Frame) (acc : List (String × JSVal)) (toks : List Token),
      parseAll { stack := .obj acc (some kv.1) :: stack, expect := .value }
          (tokensOfValue kv ++ toks)
        = resume (complete (.obj acc (some kv.1) :: stack) kv.2) toks
  | (k, v), seen, hs, stack, acc, toks => by
    have hv : storable v = true := by
      simp only [storableField, Bool.and_eq_true] at hs
      exact hs.2
    exact parse_tokensOf v hv (.obj acc (some k) :: stack) .value toks (Or.inl rfl)
end

theorem parseAll_tokensOf (v : JSVal) (hv : storable v = true) :
    parseAll { stack := [], expect := .value } (tokensOf v) = .ok v := by
  have h := parse_tokensOf v hv [] .value [] (Or.inl rfl)
  simpa [resume, complete, parseAll] using h

/-! ## Round trip, character level

Punctuation, literal names and numbers. -/

theorem prepend_nil (r : Except ParseError (List Token)) : prepend [] r = r := by
  cases r <;> rfl

theorem prepend_prepend (a b : List Token) (r : Except ParseError (List Token)) :
    prepend a (prepend b r) = prepend (a ++ b) r := by
  cases r <;> simp [prepend]

theorem lexAll_top_delim (rest : List Char) (hrest : delimited rest) (mode : LexMode)
    (tok : Token)
    (hend : lexEnd mode = .ok [tok])
    (hstep : ∀ c, c = ',' ∨ c = ']' ∨ c = '\x7d' →
      lexStep mode c = (match topStep c with
        | .ok (next, toks) => .ok (next, tok :: toks)
        | .error e => .error e)) :
    lexAll mode rest = prepend [tok] (lexAll .top rest) := by
  cases rest with
  | nil =>
    simp only [lexAll, hend]
    rfl
  | cons c cs =>
    have hc := hrest c rfl
    simp only [lexAll, hstep c hc]
    rcases hc with rfl | rfl | rfl
    · simp [topStep, lexStep, prepend_prepend]
    · simp [topStep, lexStep, prepend_prepend]
    · simp [topStep, lexStep, prepend_prepend]

theorem digitChar_isDigit (k : Nat) (hk : k < 10) :
    (Nat.digitChar k).isDigit = true ∧ (Nat.digitChar k).toNat - 48 = k ∧
    (Nat.digitChar k = '0' → k = 0) := by
  interval_cases k <;> decide

/-- The decimal digits core writes for a number: all digits, no leading
zero, and the number as their value. -/
theorem toDigitsCore_spec (fuel n : Nat) (ds : List Char) (hfuel : n < fuel) :
    ∃ pre, Nat.toDigitsCore 10 fuel n ds = pre ++ ds ∧ pre ≠ [] ∧
      (∀ c ∈ pre, c.isDigit = true) ∧ digitsValue pre = n ∧
      (pre.head? = some '0' → pre.length = 1) := by
  induction fuel generalizing n ds with
  | zero => omega
  | succ fuel ih =>
    have hd := digitChar_isDigit (n % 10) (Nat.mod_lt _ (by decide))
    simp only [Nat.toDigitsCore]
    by_cases h0 : n / 10 = 0
    · simp only [h0, if_true]
      refine ⟨[Nat.digitChar (n % 10)], rfl, by simp, ?_, ?_, fun _ => rfl⟩
      · intro c hc
        simp only [List.mem_singleton] at hc
        subst hc
        exact hd.1
      · simp only [digitsValue, List.foldl_cons, List.foldl_nil, hd.2.1]
        omega
    · simp only [h0, if_false]
      obtain ⟨pre, hpre, hne, hall, hval, hlead⟩ :=
        ih (n / 10) (Nat.digitChar (n % 10) :: ds) (by omega)
      refine ⟨pre ++ [Nat.digitChar (n % 10)], by simp [hpre], by simp, ?_, ?_, ?_⟩
      · intro c hc
        rcases List.mem_append.mp hc with hc | hc
        · exact hall c hc
        · simp only [List.mem_singleton] at hc
          subst hc
          exact hd.1
      · simp only [digitsValue, List.foldl_append, List.foldl_cons, List.foldl_nil, hd.2.1] at hval ⊢
        rw [hval]
        omega
      · intro hhead
        exfalso
        cases pre with
        | nil => exact hne rfl
        | cons p ps =>
          simp only [List.cons_append, List.head?_cons, Option.some.injEq] at hhead
          have hlen := hlead (by simp [hhead])
          simp only [List.length_cons, Nat.add_left_eq_self, List.length_eq_zero] at hlen
          subst hlen
          subst hhead
          simp only [digitsValue, List.foldl_cons, List.foldl_nil] at hval
          have : ('0' : Char).toNat - 48 = 0 := by decide
          omega

theorem toDigits_spec (n : Nat) :
    Nat.toDigits 10 n ≠ [] ∧ (∀ c ∈ Nat.toDigits 10 n, c.isDigit = true) ∧
    digitsValue (Nat.toDigits 10 n) = n ∧
    ((Nat.toDigits 10 n).head? = some '0' → (Nat.toDigits 10 n).length = 1) := by
  obtain ⟨pre, hpre, hne, hall, hval, hlead⟩ := toDigitsCore_spec (n + 1) n [] (by omega)
  simp only [List.append_nil] at hpre
  simp only [Nat.toDigits, hpre]
  exact ⟨hne, hall, hval, hlead⟩

theorem topStep_digit (c : Char) (hc : c.isDigit = true) :
    topStep c = .ok (.number [c], []) := by
  have h1 : c ≠ ' ' := by rintro rfl; exact absurd hc (by decide)
  have h2 : c ≠ '\t' := by rintro rfl; exact absurd hc (by decide)
  have h3 : c ≠ '\n' := by rintro rfl; exact absurd hc (by decide)
  have h4 : c ≠ '\r' := by rintro rfl; exact absurd hc (by decide)
  have h5 : c ≠ '\x7b' := by rintro rfl; exact absurd hc (by decide)
  have h6 : c ≠ '\x7d' := by rintro rfl; exact absurd hc (by decide)
  have h7 : c ≠ '[' := by rintro rfl; exact absurd hc (by decide)
  have h8 : c ≠ ']' := by rintro rfl; exact absurd hc (by decide)
  have h9 : c ≠ ',' := by rintro rfl; exact absurd hc (by decide)
  have h10 : c ≠ ':' := by rintro rfl; exact absurd hc (by decide)
  have h11 : c ≠ '"' := by rintro rfl; exact absurd hc (by decide)
  simp [topStep, h1, h2, h3, h4, h5, h6, h7, h8, h9, h10, h11, hc]

/-! ### Numbers -/

theorem takeWhile_digits (ds : List Char) (hall : ∀ c ∈ ds, c.isDigit = true) :
    ds.takeWhile Char.isDigit = ds ∧ ds.dropWhile Char.isDigit = [] := by
  induction ds with
  | nil => exact ⟨rfl, rfl⟩
  | cons d rest ih =>
    have hd := hall d (List.mem_cons_self _ _)
    have hr := ih (fun c hc => hall c (List.mem_cons_of_mem _ hc))
    simp [List.takeWhile, List.dropWhile, hd, hr.1, hr.2]

theorem takeWhile_digits_stop (ds : List Char) (hall : ∀ c ∈ ds, c.isDigit = true) (c : Char)
    (hc : c.isDigit = false) (rest : List Char) :
    (ds ++ c :: rest).takeWhile Char.isDigit = ds ∧
    (ds ++ c :: rest).dropWhile Char.isDigit = c :: rest := by
  induction ds with
  | nil => simp [List.takeWhile, List.dropWhile, hc]
  | cons d more ih =>
    have hd := hall d (List.mem_cons_self _ _)
    have hr := ih (fun x hx => hall x (List.mem_cons_of_mem _ hx))
    simp [List.takeWhile, List.dropWhile, hd, hr.1, hr.2]

theorem parseExponent_plus (e : Nat) :
    parseExponent ('e' :: '+' :: Nat.toDigits 10 e) = .ok (e : Int) := by
  obtain ⟨hne, hall, hval, -⟩ := toDigits_spec e
  have hall2 : (Nat.toDigits 10 e).all Char.isDigit = true := by
    rw [List.all_eq_true]
    exact hall
  simp [parseExponent, hne, hall2, hval]

theorem parseUnsigned_plain (ds : List Char) (hne : ds ≠ [])
    (hall : ∀ c ∈ ds, c.isDigit = true) (hlead : ds.head? = some '0' → ds.length = 1) :
    parseUnsigned ds = .ok (digitsValue ds) := by
  obtain ⟨htake, hdrop⟩ := takeWhile_digits ds hall
  have hzero : ¬ (ds = [] ∨ (ds.head? = some '0' ∧ ds.length ≠ 1)) := by
    rintro (h | ⟨h1, h2⟩)
    · exact hne h
    · exact h2 (hlead h1)
  simp only [parseUnsigned, htake, hdrop, hzero, if_false, List.head?_nil, List.append_nil,
    parseExponent, List.length_nil]
  simp

theorem foldl_zeros (k a : Nat) :
    (List.replicate k '0').foldl (fun n c => 10 * n + (c.toNat - 48)) a = a * 10 ^ k := by
  induction k generalizing a with
  | zero => simp
  | succ k ih =>
    simp only [List.replicate_succ, List.foldl_cons]
    rw [ih]
    have : ('0' : Char).toNat - 48 = 0 := by decide
    rw [this, Nat.pow_succ]
    ring

theorem digitsValue_append_zeros (xs : List Char) (k : Nat) :
    digitsValue (xs ++ List.replicate k '0') = digitsValue xs * 10 ^ k := by
  simp only [digitsValue, List.foldl_append, foldl_zeros]

theorem stripZeros_spec (ds : List Char) :
    ∃ k, ds = stripZeros ds ++ List.replicate k '0' ∧ k + (stripZeros ds).length = ds.length := by
  have hsplit := List.takeWhile_append_dropWhile (fun c => c == '0') ds.reverse
  have hzeros : ds.reverse.takeWhile (fun c => c == '0')
      = List.replicate (ds.reverse.takeWhile (fun c => c == '0')).length '0' := by
    apply List.eq_replicate_iff.mpr
    refine ⟨rfl, ?_⟩
    intro c hc
    have := List.mem_takeWhile_imp hc
    simpa using this
  have hrev : (ds.reverse.takeWhile (fun c => c == '0')).reverse
      = List.replicate (ds.reverse.takeWhile (fun c => c == '0')).length '0' := by
    rw [hzeros]
    simp
  refine ⟨(ds.reverse.takeWhile (fun c => c == '0')).length, ?_, ?_⟩
  · have h := congrArg List.reverse hsplit
    rw [List.reverse_append, List.reverse_reverse, hrev] at h
    exact h.symm
  · have h := congrArg List.length hsplit
    simp only [List.length_append, List.length_reverse] at h
    simp only [stripZeros, List.length_reverse]
    exact h

theorem parseUnsigned_exponent (d : Char) (more : List Char) (e : Nat) (hd : d.isDigit = true)
    (hmore : ∀ c ∈ more, c.isDigit = true) (he : more.length ≤ e) :
    parseUnsigned (d :: ((if more = [] then [] else '.' :: more)
        ++ 'e' :: '+' :: Nat.toDigits 10 e))
      = .ok (digitsValue (d :: more) * 10 ^ (e - more.length)) := by
  have hnote : ('e' : Char).isDigit = false := by decide
  have hnotdot : ('.' : Char).isDigit = false := by decide
  have hexp := parseExponent_plus e
  by_cases hm : more = []
  · subst hm
    have h1 := takeWhile_digits_stop [d] (by simpa using hd) 'e' hnote ('+' :: Nat.toDigits 10 e)
    simp only [List.singleton_append] at h1
    simp only [if_true, List.nil_append, parseUnsigned, h1.1, h1.2, List.head?_cons]
    simp [hexp]
  · have h1 := takeWhile_digits_stop [d] (by simpa using hd) '.' hnotdot
      (more ++ 'e' :: '+' :: Nat.toDigits 10 e)
    have h2 := takeWhile_digits_stop more hmore 'e' hnote ('+' :: Nat.toDigits 10 e)
    simp only [List.singleton_append] at h1
    simp only [hm, if_false, List.cons_append, parseUnsigned, h1.1, h1.2, List.head?_cons,
      List.tail_cons, h2.1, h2.2, if_true]
    have hshift : (0 : Int) ≤ (e : Int) - (more.length : Int) := by omega
    have hnat : ((e : Int) - (more.length : Int)).toNat = e - more.length := by omega
    simp [hexp, hm, hshift, hnat]

/-- The text of a natural number starts with a digit, consists of characters
of a number and is parsed back to the number. -/
theorem natText_spec (m : Nat) :
    ∃ c cs, natText m = c :: cs ∧ c.isDigit = true ∧ (∀ x ∈ cs, numberChar x) ∧
      parseUnsigned (natText m) = .ok m := by
  obtain ⟨hne, hall, hval, hlead⟩ := toDigits_spec m
  have plain : ∃ c cs, Nat.toDigits 10 m = c :: cs ∧ c.isDigit = true ∧
      (∀ x ∈ cs, numberChar x) ∧ parseUnsigned (Nat.toDigits 10 m) = .ok m := by
    cases hds : Nat.toDigits 10 m with
    | nil => exact absurd hds hne
    | cons c cs =>
      rw [hds] at hall hne hlead hval
      refine ⟨c, cs, rfl, hall c (List.mem_cons_self _ _), ?_, ?_⟩
      · intro x hx
        exact Or.inl (hall x (List.mem_cons_of_mem _ hx))
      · rw [parseUnsigned_plain _ hne hall hlead, hval]
  by_cases hsmall : m < 10 ^ 21
  · simpa only [natText, hsmall, if_true] using plain
  · simp only [natText, hsmall, if_false]
    obtain ⟨k, hk, hlen⟩ := stripZeros_spec (Nat.toDigits 10 m)
    cases hsig : stripZeros (Nat.toDigits 10 m) with
    | nil => simpa using plain
    | cons d more =>
      rw [hsig] at hk hlen
      have hd : d.isDigit = true := hall d (by rw [hk]; simp)
      have hmore : ∀ c ∈ more, c.isDigit = true := fun c hc => hall c (by rw [hk]; simp [hc])
      obtain ⟨-, hexpall, -, -⟩ := toDigits_spec ((Nat.toDigits 10 m).length - 1)
      simp only [List.length_cons] at hlen
      refine ⟨d, _, rfl, hd, ?_, ?_⟩
      · intro x hx
        rcases List.mem_append.mp hx with hx | hx
        · by_cases hm : more = []
          · simp [hm] at hx
          · simp only [hm, if_false, List.mem_cons] at hx
            rcases hx with rfl | hx
            · exact Or.inr (Or.inl rfl)
            · exact Or.inl (hmore x hx)
        · simp only [List.mem_cons] at hx
          rcases hx with rfl | rfl | hx
          · exact Or.inr (Or.inr (Or.inl rfl))
          · exact Or.inr (Or.inr (Or.inr (Or.inr (Or.inl rfl))))
          · exact Or.inl (hexpall x hx)
      · rw [parseUnsigned_exponent d more _ hd hmore (by omega)]
        have hexp : (Nat.toDigits 10 m).length - 1 - more.length = k := by omega
        rw [hexp, ← digitsValue_append_zeros, ← hk, hval]

/-- The text of an integer: a minus sign or a digit, then characters of a
number, parsed back to the integer. -/
theorem numText_spec (n : Int) :
    ∃ c cs, (numText n).toList = c :: cs ∧ topStep c = .ok (.number [c], []) ∧
      (∀ x ∈ cs, numberChar x) ∧ parseNumber (c :: cs) = .ok n := by
  cases n with
  | ofNat m =>
    obtain ⟨c, cs, htext, hc, hcs, hparse⟩ := natText_spec m
    refine ⟨c, cs, by simp [numText, htext], topStep_digit c hc, hcs, ?_⟩
    have hminus : ¬ c = '-' := by rintro rfl; exact absurd hc (by decide)
    rw [htext] at hparse
    simp [parseNumber, hminus, hparse]
  | negSucc m =>
    obtain ⟨c, cs, htext, hc, hcs, hparse⟩ := natText_spec (m + 1)
    refine ⟨'-', natText (m + 1), by simp [numText], rfl, ?_, ?_⟩
    · intro x hx
      rw [htext] at hx
      rcases List.mem_cons.mp hx with rfl | hx
      · exact Or.inl hc
      · exact hcs x hx
    · simp only [parseNumber, List.head?_cons, if_true, List.tail_cons, hparse]
      rfl

theorem lexAll_number_chars (cs : List Char) (hall : ∀ c ∈ cs, numberChar c)
    (acc rest : List Char) :
    lexAll (.number acc) (cs ++ rest) = lexAll (.number (cs.reverse ++ acc)) rest := by
  induction cs generalizing acc with
  | nil => rfl
  | cons d more ih =>
    have hd : d.isDigit = true ∨ d = '.' ∨ d = 'e' ∨ d = 'E' ∨ d = '+' ∨ d = '-' :=
      hall d (List.mem_cons_self _ _)
    simp only [List.cons_append, lexAll, lexStep, hd, if_true, prepend_nil,
      List.reverse_cons, List.append_assoc, List.singleton_append]
    exact ih (fun c hc => hall c (List.mem_cons_of_mem _ hc)) _

theorem lexAll_number_end (acc rest : List Char) (n : Int) (hrest : delimited rest)
    (hnum : parseNumber acc.reverse = .ok n) :
    lexAll (.number acc) rest = prepend [.lit (num n)] (lexAll .top rest) := by
  apply lexAll_top_delim rest hrest
  · simp [lexEnd, finishNumber, hnum]
  · intro c hc
    rcases hc with rfl | rfl | rfl <;> simp [lexStep, finishNumber, hnum, topStep]

theorem lexAll_num (n : Int) (rest : List Char) (hrest : delimited rest) :
    lexAll .top ((numText n).toList ++ rest) = prepend [.lit (num n)] (lexAll .top rest) := by
  obtain ⟨c, cs, htext, hstart, hcs, hparse⟩ := numText_spec n
  rw [htext]
  simp only [List.cons_append, lexAll, lexStep, hstart, prepend_nil]
  rw [List.append_eq, lexAll_number_chars cs hcs]
  apply lexAll_number_end _ _ _ hrest
  simpa using hparse

theorem lexAll_word_end (acc rest : List Char) (tok : Token) (hrest : delimited rest)
    (hword : finishWord acc = .ok tok) :
    lexAll (.word acc) rest = prepend [tok] (lexAll .top rest) := by
  apply lexAll_top_delim rest hrest
  · simp [lexEnd, hword]
  · intro c hc
    rcases hc with rfl | rfl | rfl <;> simp [lexStep, hword, topStep]

theorem lexAll_null (rest : List Char) (hrest : delimited rest) :
    lexAll .top ('n' :: 'u' :: 'l' :: 'l' :: rest) = prepend [.lit null] (lexAll .top rest) := by
  have h := lexAll_word_end ['l', 'l', 'u', 'n'] rest (.lit null) hrest rfl
  simpa [lexAll, lexStep, topStep, prepend_nil] using h

theorem lexAll_true (rest : List Char) (hrest : delimited rest) :
    lexAll .top ('t' :: 'r' :: 'u' :: 'e' :: rest)
      = prepend [.lit (bool true)] (lexAll .top rest) := by
  have h := lexAll_word_end ['e', 'u', 'r', 't'] rest (.lit (bool true)) hrest rfl
  simpa [lexAll, lexStep, topStep, prepend_nil] using h

theorem lexAll_false (rest : List Char) (hrest : delimited rest) :
    lexAll .top ('f' :: 'a' :: 'l' :: 's' :: 'e' :: rest)
      = prepend [.lit (bool false)] (lexAll .top rest) := by
  have h := lexAll_word_end ['e', 's', 'l', 'a', 'f'] rest (.lit (bool false)) hrest rfl
  simpa [lexAll, lexStep, topStep, prepend_nil] using h

/-! ### String literals -/

theorem lexAll_silent (m next : LexMode) (c : Char) (cs : List Char)
    (h : lexStep m c = .ok (next, [])) : lexAll m (c :: cs) = lexAll next cs := by
  simp only [lexAll, h, prepend_nil]

theorem lexAll_two (m m1 m2 : LexMode) (a b : Char) (cs : List Char)
    (h1 : lexStep m a = .ok (m1, [])) (h2 : lexStep m1 b = .ok (m2, [])) :
    lexAll m (a :: b :: cs) = lexAll m2 cs := by
  rw [lexAll_silent m m1 a _ h1, lexAll_silent m1 m2 b _ h2]

theorem lexAll_six (m m1 m2 m3 m4 m5 m6 : LexMode) (a b c d e f : Char) (cs : List Char)
    (h1 : lexStep m a = .ok (m1, [])) (h2 : lexStep m1 b = .ok (m2, []))
    (h3 : lexStep m2 c = .ok (m3, [])) (h4 : lexStep m3 d = .ok (m4, []))
    (h5 : lexStep m4 e = .ok (m5, [])) (h6 : lexStep m5 f = .ok (m6, [])) :
    lexAll m (a :: b :: c :: d :: e :: f :: cs) = lexAll m6 cs := by
  rw [lexAll_two m m1 m2 a b _ h1 h2, lexAll_two m2 m3 m4 c d _ h3 h4,
    lexAll_two m4 m5 m6 e f _ h5 h6]

theorem lexAll_string_char (c : Char) (acc tail : List Char) :
    lexAll (.string acc none) (escapeChar c ++ tail) = lexAll (.string (c :: acc) none) tail := by
  by_cases hlt : c.toNat < 32
  · have hc : c = Char.ofNat c.toNat := (Char.ofNat_toNat c).symm
    generalize c.toNat = k at hc hlt
    subst hc
    interval_cases k <;>
      first
      | exact lexAll_two _ _ _ _ _ _ rfl rfl
      | exact lexAll_six _ _ _ _ _ _ _ _ _ _ _ _ _ _ rfl rfl rfl rfl rfl rfl
  · by_cases h1 : c = '"'
    · subst h1
      exact lexAll_two _ _ _ _ _ _ rfl rfl
    · by_cases h2 : c = '\\'
      · subst h2
        exact lexAll_two _ _ _ _ _ _ rfl rfl
      · have h3 : c.toNat ≠ 8 := by omega
        have h4 : c.toNat ≠ 12 := by omega
        have h5 : c ≠ '\n' := by rintro rfl; exact hlt (by decide)
        have h6 : c ≠ '\r' := by rintro rfl; exact hlt (by decide)
        have h7 : c ≠ '\t' := by rintro rfl; exact hlt (by decide)
        simp [escapeChar, h1, h2, h3, h4, h5, h6, h7, hlt, lexAll, lexStep, pushChar,
          prepend_nil]

theorem lexAll_string (cs acc rest : List Char) :
    lexAll (.string acc none) (cs.flatMap escapeChar ++ '"' :: rest)
      = prepend [.lit (str (String.mk (acc.reverse ++ cs)))] (lexAll .top rest) := by
  induction cs generalizing acc with
  | nil => simp [lexAll, lexStep]
  | cons c more ih =>
    simp only [List.flatMap_cons, List.append_assoc]
    rw [lexAll_string_char, ih]
    simp

theorem lexAll_quote (s : String) (rest : List Char) :
    lexAll .top ((quote s).toList ++ rest) = prepend [.lit (str s)] (lexAll .top rest) := by
  have h := lexAll_string s.toList [] rest
  have htext : (quote s).toList ++ rest
      = '"' :: (s.toList.flatMap escapeChar ++ '"' :: rest) := by
    simp [quote]
  rw [htext]
  simpa [lexAll, lexStep, topStep, prepend_nil] using h

theorem delimited_comma (cs : List Char) : delimited (',' :: cs) := by
  intro c hc
  simp only [List.head?_cons, Option.some.injEq] at hc
  exact Or.inl hc.symm

theorem delimited_bracket (cs : List Char) : delimited (']' :: cs) := by
  intro c hc
  simp only [List.head?_cons, Option.some.injEq] at hc
  exact Or.inr (Or.inl hc.symm)

theorem delimited_brace (cs : List Char) : delimited ('\x7d' :: cs) := by
  intro c hc
  simp only [List.head?_cons, Option.some.injEq] at hc
  exact Or.inr (Or.inr hc.symm)

theorem lexAll_punct (c : Char) (tok : Token) (cs : List Char)
    (h : topStep c = .ok (.top, [tok])) :
    lexAll .top (c :: cs) = prepend [tok] (lexAll .top cs) := by
  simp only [lexAll, lexStep, h]

mutual
theorem lex_val : (v : JSVal) → storable v = true → ∀ rest, delimited rest →
    lexAll .top ((textOf v).toList ++ rest) = prepend (tokensOf v) (lexAll .top rest)
  | .undefined, hv => by simp [storable] at hv
  | .nan, hv => by simp [storable] at hv
  | .null, _ => fun rest hrest => lexAll_null rest hrest
  | .bool true, _ => fun rest hrest => lexAll_true rest hrest
  | .bool false, _ => fun rest hrest => lexAll_false rest hrest
  | .num n, _ => fun rest hrest => lexAll_num n rest hrest
  | .str s, _ => fun rest _ => lexAll_quote s rest
  | .arr items, hv => by
    have h := lex_items items (by simpa [storable] using hv)
    intro rest _
    have h1 := h (']' :: rest) (delimited_bracket rest)
    have htext : (textOf (arr items)).toList ++ rest
        = '[' :: ((textOfItems items).toList ++ ']' :: rest) := by
      simp [textOf, String.toList]
    rw [htext, lexAll_punct '[' .lbrack _ rfl, h1, lexAll_punct ']' .rbrack _ rfl]
    simp [prepend_prepend, tokensOf]
  | .obj fields, hv => by
    have h := lex_fields fields [] (by simpa [storable] using hv)
    intro rest _
    have h1 := h ('\x7d' :: rest) (delimited_brace rest)
    have htext : (textOf (obj fields)).toList ++ rest
        = '\x7b' :: ((textOfFields fields).toList ++ '\x7d' :: rest) := by
      simp [textOf, String.toList]
    rw [htext, lexAll_punct '\x7b' .lbrace _ rfl, h1, lexAll_punct '\x7d' .rbrace _ rfl]
    simp [prepend_prepend, tokensOf]
theorem lex_items : (items : List JSVal) → storableItems items = true →
    ∀ rest, delimited rest →
      lexAll .top ((textOfItems items).toList ++ rest)
        = prepend (tokensOfItems items) (lexAll .top rest)
  | [], _ => by
    intro rest _
    simp [textOfItems, tokensOfItems, prepend_nil, String.toList]
  | x :: more, hs => by
    intro rest hrest
    have hx : storable x = true := by
      simp only [storableItems, Bool.and_eq_true] at hs
      exact hs.1
    have hmore : storableItems more = true := by
      simp only [storableItems, Bool.and_eq_true] at hs
      exact hs.2
    have hval := lex_val x hx
    have ih := lex_items more hmore rest hrest
    cases hm : more with
    | nil =>
      have := hval rest hrest
      simpa [textOfItems, tokensOfItems, String.toList] using this
    | cons y others =>
      rw [hm] at ih
      have htext : (textOfItems (x :: y :: others)).toList ++ rest
          = (textOf x).toList ++ ',' :: ((textOfItems (y :: others)).toList ++ rest) := by
        simp [textOfItems, String.toList]
      rw [htext, hval _ (delimited_comma _), lexAll_punct ',' .comma _ rfl, ih]
      simp [prepend_prepend, tokensOfItems]
theorem lex_fields : (fields : List (String × JSVal)) → (seen : List String) →
    storableFields seen fields = true →
    ∀ rest, delimited rest →
      lexAll .top ((textOfFields fields).toList ++ rest)
        = prepend (tokensOfFields fields) (lexAll .top rest)
  | [], _, _ => by
    intro rest _
    simp [textOfFields, tokensOfFields, prepend_nil, String.toList]
  | kv :: more, seen, hs => by
    intro rest hrest
    have hkv : storableField seen kv = true ∧ storableFields (kv.1 :: seen) more = true := by
      simpa [storableFields] using hs
    have hfield := lex_field kv seen hkv.1
    have ih := lex_fields more (kv.1 :: seen) hkv.2 rest hrest
    cases hm : more with
    | nil =>
      have := hfield rest hrest
      simpa [textOfFields, tokensOfFields, String.toList] using this
    | cons kv2 others =>
      rw [hm] at ih
      have htext : (textOfFields (kv :: kv2 :: others)).toList ++ rest
          = (textOfField kv).toList ++ ',' :: ((textOfFields (kv2 :: others)).toList ++ rest) := by
        simp [textOfFields, String.toList]
      rw [htext, hfield _ (delimited_comma _), lexAll_punct ',' .comma _ rfl, ih]
      simp [prepend_prepend, tokensOfFields]
theorem lex_field : (kv : String × JSVal) → (seen : List String) →
    storableField seen kv = true →
    ∀ rest, delimited rest →
      lexAll .top ((textOfField kv).toList ++ rest)
        = prepend (tokensOfField kv) (lexAll .top rest)
  | (k, v), seen, hs => by
    have hv : storable v = true := by
      simp only [storableField, Bool.and_eq_true] at hs
      exact hs.2
    have hval := lex_val v hv
    intro rest hrest
    have htext : (textOfField (k, v)).toList ++ rest
        = (quote k).toList ++ ':' :: ((textOf v).toList ++ rest) := by
      simp [textOfField, String.toList]
    rw [htext, lexAll_quote, lexAll_punct ':' .colon _ rfl, hval rest hrest]
    simp [prepend_prepend, tokensOfField]
end

/-! ## Round trip: `JSON.parse` after `JSON.stringify` -/

/-- What `JSON.stringify` writes for a JSON value is read back by `JSON.parse`
as that value. -/
theorem jsonParse_textOf (v : JSVal) (hv : storable v = true) :
    jsonParse (textOf v) = .ok v := by
  have h := lex_val v hv [] (by intro c hc; cases hc)
  simp only [List.append_nil, lexAll, lexEnd, prepend] at h
  simp only [jsonParse, h, List.append_nil]
  exact parseAll_tokensOf v hv

mutual
theorem storable_jsonOf : (v : JSVal) → storable (jsonOf v) = true
  | .undefined => rfl
  | .nan => rfl
  | .null => rfl
  | .bool _ => rfl
  | .num _ => rfl
  | .str _ => rfl
  | .arr items => by
    simpa [jsonOf, storable] using storableItems_jsonOf items
  | .obj fields => by
    simpa [jsonOf, storable] using storableFields_jsonOf fields [] [] (by simp)
theorem storableItems_jsonOf : (items : List JSVal) →
    storableItems (jsonOfItems items) = true
  | [] => rfl
  | x :: rest => by
    simp only [jsonOfItems, storableItems, Bool.and_eq_true]
    exact ⟨storable_jsonOf x, storableItems_jsonOf rest⟩
theorem storableFields_jsonOf : (fields : List (String × JSVal)) →
    ∀ (seen written : List String), (∀ k ∈ written, k ∈ seen) →
      storableFields written (jsonOfFields seen fields) = true
  | [], _, _, _ => rfl
  | kv :: rest, seen, written, hsub => by
    simp only [jsonOfFields]
    by_cases hseen : seen.contains kv.1 = true
    · simp only [hseen, if_true]
      exact storableFields_jsonOf rest seen written hsub
    · simp only [hseen, Bool.false_eq_true, if_false]
      have hfield := storableField_jsonOf kv
      cases hp : jsonOfField kv with
      | none =>
        simp only
        exact storableFields_jsonOf rest (kv.1 :: seen) written
          (fun k hk => List.mem_cons_of_mem _ (hsub k hk))
      | some p =>
        obtain ⟨hkey, hval⟩ := hfield p hp
        simp only [storableFields, Bool.and_eq_true]
        refine ⟨?_, ?_⟩
        · have hfresh : written.contains p.1 = false := by
            cases hw : written.contains p.1 with
            | false => rfl
            | true =>
              exfalso
              apply hseen
              have hmem : p.1 ∈ written := by simpa using hw
              have := hsub p.1 hmem
              rw [hkey] at this
              simpa using this
          cases p with
          | mk k v =>
            simp only [storableField, Bool.and_eq_true, Bool.not_eq_true']
            exact ⟨hfresh, hval⟩
        · apply storableFields_jsonOf rest (kv.1 :: seen) (p.1 :: written)
          intro k hk
          rcases List.mem_cons.mp hk with rfl | hk
          · rw [hkey]
            exact List.mem_cons_self _ _
          · exact List.mem_cons_of_mem _ (hsub k hk)
theorem storableField_jsonOf : (kv : String × JSVal) →
    ∀ p, jsonOfField kv = some p → p.1 = kv.1 ∧ storable p.2 = true
  | (k, v), p, hp => by
    cases v with
    | undefined => simp [jsonOfField] at hp
    | null => simp only [jsonOfField, Option.some.injEq] at hp; subst hp; exact ⟨rfl, rfl⟩
    | nan => simp only [jsonOfField, Option.some.injEq] at hp; subst hp; exact ⟨rfl, rfl⟩
    | bool b => simp only [jsonOfField, Option.some.injEq] at hp; subst hp; exact ⟨rfl, rfl⟩
    | num n => simp only [jsonOfField, Option.some.injEq] at hp; subst hp; exact ⟨rfl, rfl⟩
    | str s => simp only [jsonOfField, Option.some.injEq] at hp; subst hp; exact ⟨rfl, rfl⟩
    | arr items =>
      simp only [jsonOfField, Option.some.injEq] at hp
      subst hp
      exact ⟨rfl, storable_jsonOf (.arr items)⟩
    | obj fields =>
      simp only [jsonOfField, Option.some.injEq] at hp
      subst hp
      exact ⟨rfl, storable_jsonOf (.obj fields)⟩
end

mutual
theorem jsonOf_of_storable : (v : JSVal) → storable v = true → jsonOf v = v
  | .undefined, hv => by simp [storable] at hv
  | .nan, hv => by simp [storable] at hv
  | .null, _ => rfl
  | .bool _, _ => rfl
  | .num _, _ => rfl
  | .str _, _ => rfl
  | .arr items, hv => by
    simp only [jsonOf, jsonOfItems_of_storable items (by simpa [storable] using hv)]
  | .obj fields, hv => by
    simp only [jsonOf, jsonOfFields_of_storable fields [] (by simpa [storable] using hv)]
theorem jsonOfItems_of_storable : (items : List JSVal) → storableItems items = true →
    jsonOfItems items = items
  | [], _ => rfl
  | x :: rest, hs => by
    simp only [storableItems, Bool.and_eq_true] at hs
    simp only [jsonOfItems, jsonOf_of_storable x hs.1, jsonOfItems_of_storable rest hs.2]
theorem jsonOfFields_of_storable : (fields : List (String × JSVal)) → (seen : List String) →
    storableFields seen fields = true → jsonOfFields seen fields = fields
  | [], _, _ => rfl
  | kv :: rest, seen, hs => by
    have hkv : storableField seen kv = true ∧ storableFields (kv.1 :: seen) rest = true := by
      simpa [storableFields] using hs
    obtain ⟨hfresh, hfield⟩ := jsonOfField_of_storable kv seen hkv.1
    simp only [jsonOfFields, hfresh, Bool.false_eq_true, if_false, hfield,
      jsonOfFields_of_storable rest (kv.1 :: seen) hkv.2]
theorem jsonOfField_of_storable : (kv : String × JSVal) → (seen : List String) →
    storableField seen kv = true → seen.contains kv.1 = false ∧ jsonOfField kv = some kv
  | (k, v), seen, hs => by
    simp only [storableField, Bool.and_eq_true, Bool.not_eq_true'] at hs
    refine ⟨hs.1, ?_⟩
    have hv := jsonOf_of_storable v hs.2
    cases v with
    | undefined => simp [storable] at hs
    | _ => simp only [jsonOfField, hv]
end

theorem jsonOfItems_eq_map (items : List JSVal) : jsonOfItems items = items.map jsonOf := by
  induction items with
  | nil => rfl
  | cons x rest ih => simp only [jsonOfItems, List.map_cons, ih]

/-- What `JSON.stringify` writes for an array is read back by `JSON.parse` as
the array of the serialised elements, in the same order. -/
theorem jsonParse_stringify (items : List JSVal) :
    ∃ text, stringifyVal (arr items) = some text ∧ text ≠ "" ∧
      jsonParse text = .ok (arr (items.map jsonOf)) := by
  refine ⟨textOf (jsonOf (arr items)), rfl, ?_, ?_⟩
  · intro h
    have hparse := jsonParse_textOf (jsonOf (arr items)) (storable_jsonOf _)
    rw [h] at hparse
    cases hparse
  · rw [jsonParse_textOf _ (storable_jsonOf _)]
    simp only [jsonOf, jsonOfItems_eq_map]

/-- Persist, then load: the snapshot the script writes for its history loads
as the serialised records of that history, in the same order. -/
theorem loadHistory_persist (page : Page) :
    loadHistory (persist page).storage = .ok (arr (page.scanHistory.map jsonOf)) := by
  obtain ⟨text, h1, h2, h3⟩ := jsonParse_stringify page.scanHistory
  simp only [persist, h1, loadHistory, storedText, h2, if_false, h3]

/-- The text `JSON.stringify` gives for an array, stored under the key, loads
as the array of the serialised elements. -/
theorem loadHistory_stringify (items : List JSVal) :
    loadHistory (stringifyVal (arr items)) = .ok (arr (items.map jsonOf)) := by
  obtain ⟨text, h1, h2, h3⟩ := jsonParse_stringify items
  simp only [h1, loadHistory, storedText, h2, if_false, h3]

/-- Serialising a serialised value changes nothing. -/
theorem jsonOf_idem (v : JSVal) : jsonOf (jsonOf v) = jsonOf v :=
  jsonOf_of_storable _ (storable_jsonOf v)

/-! ## The claims -/

/-- C1: scans that each get a 2xx answer append their records one after
another with the `unshift` step of `startScan`: after runs creating r1..rN on
a page with history h the history is rN, ..., r1 followed by h unchanged,
which is h with the records unshifted one by one, and the snapshot written by
the last run is the text of that history and loads back in the same order. -/
theorem C1_appends_newest_first (page : Page) (attempts : List ScanAttempt)
    (hs : ∀ a ∈ attempts, a.succeeds) :
    (runScans page attempts).scanHistory
      = (attempts.map ScanAttempt.record).reverse ++ page.scanHistory ∧
    (runScans page attempts).scanHistory
      = (attempts.map ScanAttempt.record).foldl unshift page.scanHistory ∧
    (attempts ≠ [] → (runScans page attempts).storage
      = stringifyVal (arr ((attempts.map ScanAttempt.record).reverse ++ page.scanHistory))) ∧
    (attempts ≠ [] → loadHistory (runScans page attempts).storage
      = .ok (arr (((attempts.map ScanAttempt.record).reverse ++ page.scanHistory).map jsonOf))) := by
  obtain ⟨h1, h2⟩ := runScans_spec attempts page hs
  refine ⟨h1, ?_, ?_, ?_⟩
  · rw [h1, foldl_unshift]
  · intro hne
    rw [h2 hne, h1]
  · intro hne
    rw [h2 hne, h1, loadHistory_stringify]

/-- Witness of C1: a subdomain scan and then a JavaScript analysis on a page
that already holds one record. -/
theorem C1_witness :
    (∀ a ∈ sampleAttempts, a.succeeds) ∧
    (runScans (pageWith [whoisRecord]) sampleAttempts).scanHistory
      = [scanResult (stubEnv 1700000000001 (.response 201 (.ok (obj [("js_files", arr [])]))))
           (str "js") (str "http://example.com/app.js") (obj [("js_files", arr [])]),
         exampleRecord, whoisRecord] :=
  have hs : ∀ a ∈ sampleAttempts, a.succeeds := by
    intro a ha
    simp only [sampleAttempts, List.mem_cons, List.mem_singleton, List.not_mem_nil,
      or_false] at ha
    rcases ha with rfl | rfl <;> exact ⟨rfl, rfl, rfl⟩
  ⟨hs, (C1_appends_newest_first (pageWith [whoisRecord]) sampleAttempts hs).1⟩

/-- C2, as stated, fails: two scans that finish at the same clock value carry
the same id, and a confirmed `deleteScan` of that id removes both, so the
length drops from 2 to 0 although a record with that id was present. -/
theorem C2_counterexample :
    twinPage.scanHistory.length = 2 ∧
    twinPage.scanHistory.countP (hasId (num 1700000000000)) = 2 ∧
    (deleteScan exampleEnv twinPage (num 1700000000000)).1.scanHistory.length = 0 :=
  ⟨rfl, rfl, rfl⟩

/-- C2, amended: after a confirmed `deleteScan(x)` on a history of records no
record has id x, and the length has dropped by the number of records of h
with id x. -/
theorem C2_delete_removes_every_match (env : Env) (page : Page) (x : JSVal)
    (hc : env.confirm = true) (hrec : ∀ s ∈ page.scanHistory, isRecord s = true) :
    (∀ s ∈ (deleteScan env page x).1.scanHistory, hasId x s = false) ∧
    (deleteScan env page x).1.scanHistory.length + page.scanHistory.countP (hasId x)
      = page.scanHistory.length := by
  rw [deleteScan_history env page x hc hrec]
  refine ⟨?_, ?_⟩
  · intro s hs
    simpa using (List.mem_filter.mp hs).2
  · rw [List.length_eq_countP_add_countP (hasId x) page.scanHistory, List.countP_eq_length_filter,
      List.countP_eq_length_filter, Nat.add_comm]
    congr 2
    apply List.filter_congr
    intro s _
    cases hasId x s <;> rfl

/-- Witness of C2 on the page of the end-to-end example. -/
theorem C2_witness :
    (∀ s ∈ (deleteScan exampleEnv examplePage (num 1700000000000)).1.scanHistory,
      hasId (num 1700000000000) s = false) ∧
    (deleteScan exampleEnv examplePage (num 1700000000000)).1.scanHistory.length
      + examplePage.scanHistory.countP (hasId (num 1700000000000))
      = examplePage.scanHistory.length :=
  C2_delete_removes_every_match exampleEnv examplePage (num 1700000000000) rfl
    (by
      intro s hs
      have h : examplePage.scanHistory = [exampleRecord] := rfl
      rw [h] at hs
      simp only [List.mem_singleton] at hs
      subst hs
      rfl)

set_option maxRecDepth 100000 in
/-- C3, as stated, fails: a rejected request surfaces the message of the
transport error, not the generic text; an `error` field holding the empty
string surfaces the generic text, not that field; and an `error` field holding
an object with an entry named `toString` surfaces the TypeError of its
conversion. -/
theorem C3_counterexample :
    (startScan (stubEnv 0 (.rejected (.typeError "Failed to fetch"))) (pageWith [])
      (str "subdomain") examplePayload).alerts = ["Failed to fetch"] ∧
    "Failed to fetch" ≠ genericError ∧
    (startScan (stubEnv 0 (.response 500 (.ok (obj [("error", str "")])))) (pageWith [])
      (str "subdomain") examplePayload).alerts = [genericError] ∧
    genericError ≠ "" ∧
    (startScan (stubEnv 0 (.response 500 (.ok (obj [("error", obj [("toString", num 1)])]))))
      (pageWith []) (str "subdomain") examplePayload).alerts
      = ["Cannot convert object to primitive value"] :=
  ⟨rfl, by decide, rfl, by decide, rfl⟩

/-- C3, amended: when the request is rejected or answered with a status that
is not 2xx, the history and the snapshot are unchanged and exactly one message
is shown: the message of the transport error or of the error of reading the
body; for a body `null`, the message of the TypeError of reading its `error`;
otherwise the `error` field converted to a string when that field is truthy
(so a non-empty string e is shown as e), the generic text when it is absent or
falsy, and 'Cannot convert object to primitive value' when the conversion
throws. -/
theorem C3_failure_keeps_history (env : Env) (page : Page) (type data : JSVal)
    (out : FetchOutcome) (hout : scanOutcome env type data = .ok out)
    (hfail : out.failed = true) :
    (startScan env page type data).scanHistory = page.scanHistory ∧
    (startScan env page type data).storage = page.storage ∧
    ∃ m, (startScan env page type data).alerts = page.alerts ++ [m] ∧
      (∀ e, out = .rejected e → m = e.message) ∧
      (∀ status e, out = .response status (.error e) → m = e.message) ∧
      (∀ status body e, out = .response status (.ok body) →
        getProp body "error" = .error e → m = e.message) ∧
      (∀ status body text, out = .response status (.ok body) → body.nullish = false →
        toStr (orElse (member body "error") (str genericError)) = .ok text → m = text) ∧
      (∀ status body e, out = .response status (.ok body) → body.nullish = false →
        toStr (orElse (member body "error") (str genericError)) = .error e →
        m = "Cannot convert object to primitive value") ∧
      (∀ status body e, out = .response status (.ok body) →
        member body "error" = str e → e ≠ "" → m = e) ∧
      (∀ status body, out = .response status (.ok body) →
        body.nullish = false → (member body "error").truthy = false → m = genericError) := by
  simp only [startScan, scanBody_of_outcome env _ type data out hout, scanAnswer]
  cases out with
  | rejected e =>
    refine ⟨rfl, rfl, e.message, rfl, ?_, ?_, ?_, ?_, ?_, ?_, ?_⟩
    · intro e2 h; cases h; rfl
    all_goals (intros; simp_all)
  | response status json =>
    have hst : responseOk status = false := by
      simpa [FetchOutcome.failed] using hfail
    cases json with
    | error e =>
      refine ⟨rfl, rfl, e.message, rfl, ?_, ?_, ?_, ?_, ?_, ?_, ?_⟩
      · intro e2 h; cases h
      · intro s e2 h; cases h; rfl
      all_goals (intros; simp_all)
    | ok body =>
      simp only [hst, Bool.false_eq_true, if_false]
      refine ⟨trivial, trivial, (scanError body).message, rfl, ?_, ?_, ?_, ?_, ?_, ?_, ?_⟩
      · intro e2 h; cases h
      · intro s e2 h; cases h
      · intro s b e h hb
        cases h
        simp only [scanError, hb]
      · intro s b text h hn ht
        cases h
        have hg : getProp body "error" = .ok (member body "error") := by
          cases body <;> simp_all [getProp, nullish]
        simp only [scanError, hg, ht, JSError.message]
      · intro s b e h hn ht
        cases h
        have hg : getProp body "error" = .ok (member body "error") := by
          cases body <;> simp_all [getProp, nullish]
        have he := toStr_error _ _ ht
        subst he
        simp only [scanError, hg, ht]
        rfl
      · intro s b e h hb he
        cases h
        have hg : getProp body "error" = .ok (member body "error") := by
          cases body <;> simp_all [getProp, member]
        simp [scanError, hg, hb, orElse, truthy, he, toStr, JSError.message]
      · intro s b h hn hf
        cases h
        have hg : getProp body "error" = .ok (member body "error") := by
          cases body <;> simp_all [getProp, nullish]
        simp [scanError, hg, orElse, hf, toStr, JSError.message]

/-- Witness of C3: status 500 with the body carrying the error "boom". -/
theorem C3_witness :
    (startScan (stubEnv 0 (.response 500 (.ok (obj [("error", str "boom")])))) (pageWith [])
      (str "subdomain") examplePayload).scanHistory = [] ∧
    (startScan (stubEnv 0 (.response 500 (.ok (obj [("error", str "boom")])))) (pageWith [])
      (str "subdomain") examplePayload).alerts = ["boom"] := by
  obtain ⟨h1, -, m, hm, -, -, -, -, -, h6, -⟩ :=
    C3_failure_keeps_history (stubEnv 0 (.response 500 (.ok (obj [("error", str "boom")]))))
      (pageWith []) (str "subdomain") examplePayload
      (.response 500 (.ok (obj [("error", str "boom")]))) rfl rfl
  have hb : m = "boom" := h6 500 (obj [("error", str "boom")]) "boom" rfl rfl (by decide)
  subst hb
  exact ⟨h1, hm⟩

/-- C4, as stated, fails: a scan submitted with the empty string as target
stores a record whose `target` is `undefined`, not that string. -/
theorem C4_counterexample :
    (startScan exampleEnv (pageWith []) (str "subdomain")
      (obj [("target_domain", str "")])).scanHistory.map (fun r => member r "target")
      = [undefined] ∧
    undefined ≠ str "" :=
  ⟨rfl, by intro h; cases h⟩

/-- C4, amended: for every non-empty target string t and 2xx body b of the
subdomain shape, `startScan('subdomain', {target_domain: t})` puts exactly one
new record r in front of the history, with type 'subdomain', status
'completed', target t and results b, and the `totalSubdomains` counter of the
new history is the one of the old history plus the length of `b.subdomains`. -/
theorem C4_subdomain_scan_commits (env : Env) (page : Page) (t : String) (status : Nat)
    (b : JSVal) (ht : t ≠ "")
    (hfetch : env.fetch "/api/scan/subdomains" (obj [("target_domain", str t)])
      = .response status (.ok b))
    (hok : responseOk status = true) (hshape : subdomainShape b = true) :
    ∃ r, (startScan env page (str "subdomain") (obj [("target_domain", str t)])).scanHistory
        = r :: page.scanHistory ∧
      member r "type" = str "subdomain" ∧ member r "status" = str "completed" ∧
      member r "target" = str t ∧ member r "results" = b ∧
      ∀ before n, computeStats page.scanHistory = .ok before → before.totalSubdomains = num n →
        ∃ after, computeStats (r :: page.scanHistory) = .ok after ∧
          after.totalSubdomains = num (n + seqLength (member b "subdomains")) := by
  refine ⟨scanResult env (str "subdomain") (str t) b, ?_, rfl, rfl, rfl, rfl, ?_⟩
  · have htarget : scanTarget (obj [("target_domain", str t)]) = .ok (str t) := by
      have hm : member (obj [("target_domain", str t)]) "target_domain" = str t := rfl
      simp [scanTarget, getProp, nullish, hm, truthy, ht]
    have hout : scanOutcome env (str "subdomain") (obj [("target_domain", str t)])
        = .ok (.response status (.ok b)) := by
      have hurl : requestUrl (str "subdomain") = .ok "/api/scan/subdomains" := rfl
      simp only [scanOutcome, hurl, hfetch]
    exact (startScan_success env page (str "subdomain") _ status b (str t) hout hok htarget).1
  · intro before n hbefore hn
    have hr := resultsMatchType_scanResult env (str t) b hshape
    simp only [computeStats, bind, Except.bind] at hbefore
    split at hbefore
    · cases hbefore
    · rename_i subs hsubs
      split at hbefore
      · cases hbefore
      · rename_i vulns hvulns
        simp only [pure, Except.pure] at hbefore
        cases hbefore
        simp only at hn
        subst hn
        have hstep := addSubdomains_of_shape 0 _ hr
        have hv : addVulnerabilities (num 0) (scanResult env (str "subdomain") (str t) b)
            = .ok (num 0) := rfl
        have hfound : subdomainsFound (scanResult env (str "subdomain") (str t) b)
            = seqLength (member b "subdomains") := rfl
        have hshift := reduceE_shift page.scanHistory 0 (seqLength (member b "subdomains")) n hsubs
        rw [hfound] at hstep
        refine ⟨{ totalScans := num (page.scanHistory.length + 1 : Nat),
                  totalSubdomains := num (n + seqLength (member b "subdomains")),
                  totalVulnerabilities := vulns }, ?_, rfl⟩
        simp only [computeStats, bind, Except.bind, reduceE, hstep, hshift, hv, hvulns, pure,
          Except.pure, List.length_cons]

/-- Witness of C4: the end-to-end example of the specification. -/
theorem C4_witness :
    ∃ r, examplePage.scanHistory = [r] ∧
      member r "type" = str "subdomain" ∧ member r "status" = str "completed" ∧
      member r "target" = str "example.com" ∧ member r "results" = exampleBody ∧
      ∃ after, computeStats [r] = .ok after ∧ after.totalSubdomains = num 2 := by
  obtain ⟨r, h1, h2, h3, h4, h5, h6⟩ :=
    C4_subdomain_scan_commits exampleEnv (pageWith []) "example.com" 200 exampleBody
      (by decide) rfl rfl rfl
  obtain ⟨after, ha, hb⟩ := h6 ⟨num 0, num 0, num 0⟩ 0 rfl rfl
  exact ⟨r, h1, h2, h3, h4, h5, after, ha, hb⟩

/-- C5: on a history whose records have results matching their type,
`updateStats` computes the number of records, the sum over subdomain records
of the length of `results.subdomains` and the sum over JavaScript records of
the length of `results.vulnerabilities`, an absent field counting 0 and any
other record nothing; on the empty history the three counters are 0. -/
theorem C5_stats_are_sums (history : List JSVal)
    (hshape : ∀ s ∈ history, resultsMatchType s = true) :
    computeStats history = .ok
      { totalScans := num history.length,
        totalSubdomains := num (history.map subdomainsFound).sum,
        totalVulnerabilities := num (history.map vulnerabilitiesFound).sum } ∧
    computeStats [] = .ok { totalScans := num 0, totalSubdomains := num 0,
                            totalVulnerabilities := num 0 } :=
  ⟨computeStats_of_shape history hshape, rfl⟩

/-- Witness of C5: a history of three records, one of an unknown type. -/
theorem C5_witness :
    computeStats [exampleRecord, noToolsRecord, whoisRecord] = .ok
      { totalScans := num 3, totalSubdomains := num 3, totalVulnerabilities := num 0 } :=
  (C5_stats_are_sums [exampleRecord, noToolsRecord, whoisRecord]
    (by
      intro s hs
      simp only [List.mem_cons, List.mem_singleton, List.not_mem_nil, or_false] at hs
      rcases hs with rfl | rfl | rfl <;> rfl)).1

/-- C6, as stated, fails: a stored text that is not valid JSON makes the load
throw instead of giving the empty history. -/
theorem C6_counterexample : loadHistory (some "\x7boops") = .error .invalid := rfl

set_option maxRecDepth 100000 in
/-- C6, amended: an absent or empty stored value loads as the empty history;
the snapshot the script wrote for a history loads, without failing, as the
records of that history in the same order, each record as `JSON.stringify`
serialises it, which is the record itself when it holds only JSON values; a
snapshot of two records loads as these two in the order of the text. -/
theorem C6_load_defaults_and_keeps_order :
    loadHistory none = .ok (arr []) ∧
    loadHistory (some "") = .ok (arr []) ∧
    (∀ page : Page,
      loadHistory (persist page).storage = .ok (arr (page.scanHistory.map jsonOf))) ∧
    (∀ v : JSVal, storable v = true → jsonOf v = v) ∧
    (∀ v : JSVal, jsonOf (jsonOf v) = jsonOf v) ∧
    loadHistory (some sampleSnapshot) = .ok (arr sampleRecords) :=
  ⟨rfl, rfl, loadHistory_persist, jsonOf_of_storable, jsonOf_idem, rfl⟩

/-- Witness of C6: the snapshot written after two scans loads as the history
of that page. -/
theorem C6_witness :
    loadHistory (persist twinPage).storage = .ok (arr twinPage.scanHistory) := by
  have h := C6_load_defaults_and_keeps_order
  have hsame : jsonOf (arr twinPage.scanHistory) = arr twinPage.scanHistory :=
    h.2.2.2.1 (arr twinPage.scanHistory) rfl
  have hmap : twinPage.scanHistory.map jsonOf = twinPage.scanHistory := by
    simp only [jsonOf, jsonOfItems_eq_map] at hsame
    exact JSVal.arr.inj hsame
  rw [h.2.2.1 twinPage, hmap]

/-- C7, as stated, fails: behind a subdomain record with the same id, a record
of an unknown type is not the one `showResults` finds for its id, and the
detail view shows the markup of the subdomain record instead of nothing. -/
theorem C7_counterexample :
    member shadowedRecord "type" = str "whois" ∧
    (showResults (pageWith [exampleRecord, shadowedRecord]) (member shadowedRecord "id")).toOption.map
      (fun p => p.resultsContainer) = (subdomainDetail exampleRecord).toOption ∧
    (showResults (pageWith [exampleRecord, shadowedRecord]) (member shadowedRecord "id")).toOption.map
      (fun p => (p.resultsModal, p.resultsContainer != "")) = some ("block", true) :=
  ⟨rfl, rfl, rfl⟩

/-- C7, amended: a record whose type is none of 'subdomain', 'directory',
'js', with any results, has the summary '0 sonuç'; and when it is the first
entry of the history with its id (the entries before it are objects with
another id, and its id equals itself under `===`), `showResults` on that id
writes the empty detail markup and opens the dialog; neither throws. -/
theorem C7_unknown_type_renders_empty (page : Page) (fields : List (String × JSVal))
    (pre post : List JSVal)
    (h1 : member (obj fields) "type" ≠ str "subdomain")
    (h2 : member (obj fields) "type" ≠ str "directory")
    (h3 : member (obj fields) "type" ≠ str "js")
    (hhist : page.scanHistory = pre ++ obj fields :: post)
    (hpre : ∀ s ∈ pre, isRecord s = true ∧ hasId (member (obj fields) "id") s = false)
    (hid : hasId (member (obj fields) "id") (obj fields) = true) :
    getResultsSummary (obj fields) = .ok "0 sonuç" ∧
    showResults page (member (obj fields) "id")
      = .ok { page with resultsContainer := "", resultsModal := "block" } := by
  have e1 : strictEq (member (obj fields) "type") (str "subdomain") = false := by
    cases h : strictEq (member (obj fields) "type") (str "subdomain") with
    | false => rfl
    | true => exact absurd ((strictEq_str_iff _ _).mp h) h1
  have e2 : strictEq (member (obj fields) "type") (str "directory") = false := by
    cases h : strictEq (member (obj fields) "type") (str "directory") with
    | false => rfl
    | true => exact absurd ((strictEq_str_iff _ _).mp h) h2
  have e3 : strictEq (member (obj fields) "type") (str "js") = false := by
    cases h : strictEq (member (obj fields) "type") (str "js") with
    | false => rfl
    | true => exact absurd ((strictEq_str_iff _ _).mp h) h3
  have hget : getProp (obj fields) "type" = .ok (member (obj fields) "type") := rfl
  refine ⟨?_, ?_⟩
  · simp only [getResultsSummary, hget, bind, Except.bind, e1, e2, e3, Bool.false_eq_true,
      if_false, pure, Except.pure]
  · have hfind := findScan_first (member (obj fields) "id") pre post (obj fields) hpre rfl hid
    simp only [showResults, hhist, hfind, bind, Except.bind, truthy, Bool.not_true,
      Bool.false_eq_true, if_false, detailMarkup, hget, e1, e2, e3, pure, Except.pure]

/-- Witness of C7: a 'whois' record behind the record of the end-to-end example. -/
theorem C7_witness :
    getResultsSummary whoisRecord = .ok "0 sonuç" ∧
    showResults (pageWith [exampleRecord, whoisRecord]) (num 41)
      = .ok { pageWith [exampleRecord, whoisRecord] with
              resultsContainer := "", resultsModal := "block" } :=
  C7_unknown_type_renders_empty (pageWith [exampleRecord, whoisRecord]) _ [exampleRecord] []
    (by show str "whois" ≠ str "subdomain"; simp)
    (by show str "whois" ≠ str "directory"; simp)
    (by show str "whois" ≠ str "js"; simp) rfl
    (by
      intro s hs
      simp only [List.mem_singleton] at hs
      subst hs
      exact ⟨rfl, rfl⟩)
    rfl

/-- C8 fails on the detail view: for a subdomain record whose results lack
`tools_used` the summary and the counters treat the record normally, while
`showResults` throws a TypeError and renders nothing. -/
theorem C8_detail_throws_on_absent_field :
    getResultsSummary noToolsRecord = .ok "1 subdomain" ∧
    computeStats [noToolsRecord] = .ok
      { totalScans := num 1, totalSubdomains := num 1, totalVulnerabilities := num 0 } ∧
    showResults (pageWith [noToolsRecord]) (num 1)
      = .error (.typeError "Cannot read properties of undefined (reading 'join')") :=
  ⟨rfl, rfl, rfl⟩

/-- C9 fails on a 2xx body `null`: the subdomain scan stores and persists a
completed record and also shows an error to the user. -/
theorem C9_record_persisted_and_error_shown :
    nullBodyPage.scanHistory
      = [scanResult (stubEnv 1700000000000 (.response 200 (.ok null))) (str "subdomain")
          (str "example.com") null] ∧
    nullBodyPage.storage = stringifyVal (arr nullBodyPage.scanHistory) ∧
    nullBodyPage.storage ≠ (pageWith []).storage ∧
    nullBodyPage.alerts = ["Cannot read properties of null (reading 'subdomains')"] :=
  ⟨rfl, rfl, by decide, rfl⟩

/-- C10 fails: after the successful scan of the end-to-end example the record
is in the history and no error was shown, yet the detail container is still
empty and the results dialog still closed, whereas `showResults` called on
the id of the record opens the dialog with its markup. -/
theorem C10_detail_not_rendered_after_scan :
    examplePage.scanHistory = [exampleRecord] ∧
    examplePage.alerts = [] ∧
    examplePage.resultsContainer = "" ∧
    examplePage.resultsModal = "none" ∧
    (showResults examplePage (member exampleRecord "id")).toOption.map
      (fun p => (p.resultsModal, p.resultsContainer != "")) = some ("block", true) :=
  ⟨rfl, rfl, rfl, rfl, rfl⟩

end OsintTool
